import Mathlib

/-!
A verification development for the meez3d engine: a shallow embedding of the
tile-grid ray projector (`level.rs`), the draw-batch layer (`rendercontext.rs`),
the geometry primitives (`geometry.rs`), and the color parser (`utils.rs`),
together with theorems checking the natural-language specification against it.

Machine floats (`f32`) are embedded as real numbers; `usize`/`u32` as `Nat`;
`i32` as `Int` (overflow is irrelevant to the properties considered, so no
wraparound modelling is needed); Rust's truncating integer division `/` on
`i32` is `Int.tdiv`; the `f32 -> usize` cast (truncation toward zero,
saturating at 0) is `toUsize` below.
-/

namespace Meez

/-! ## Constants (`constants.rs`, `level.rs`, `wgpu/renderer.rs`) -/

def RENDER_WIDTH : ℕ := 320

def RENDER_HEIGHT : ℕ := 200

def CIRCLE_STEPS : ℕ := 50

def MAX_LIGHTS : ℕ := 32

/-- From `wgpu/renderer.rs`: the renderer-side cap on batch entries. -/
def MAX_ENTRIES : ℕ := 4096

noncomputable def TOLERANCE : ℝ := 0.0001

noncomputable def PLAYER_SIZE : ℝ := 0.8

noncomputable def MOVE_SPEED : ℝ := 0.05

noncomputable def TURN_SPEED : ℝ := 0.02

/-- Rust `std::f32::consts::TAU`, embedded exactly. -/
noncomputable def TAU : ℝ := 2 * Real.pi

/-! ## Geometry (`geometry.rs`) -/

structure Point (α : Type) where
  x : α
  y : α
deriving DecidableEq

namespace Point

def add {α : Type} [Add α] (p q : Point α) : Point α := ⟨p.x + q.x, p.y + q.y⟩

def smul {α : Type} [Mul α] (p : Point α) (s : α) : Point α := ⟨p.x * s, p.y * s⟩

end Point

structure Rect (α : Type) where
  x : α
  y : α
  w : α
  h : α
deriving DecidableEq

namespace Rect

variable {α : Type} [Add α] [LE α]

def top (r : Rect α) : α := r.y

def left (r : Rect α) : α := r.x

def right (r : Rect α) : α := r.x + r.w

def bottom (r : Rect α) : α := r.y + r.h

/-- `Rect::intersects`: all four comparisons are non-strict (closed intervals). -/
def intersects (a b : Rect α) : Prop :=
  b.left ≤ a.right ∧ a.left ≤ b.right ∧ b.top ≤ a.bottom ∧ a.top ≤ b.bottom

/-- `Rect::contains`: closed bounds on all four sides. -/
def contains (r : Rect α) (p : Point α) : Prop :=
  r.left ≤ p.x ∧ p.x ≤ r.right ∧ r.top ≤ p.y ∧ p.y ≤ r.bottom

end Rect

/-! ## Colors (`utils.rs`) -/

structure Color where
  r : ℕ
  g : ℕ
  b : ℕ
  a : ℕ
deriving DecidableEq

/-! ## Sprites and the draw batch (`sprite.rs`, `rendercontext.rs`) -/

structure Sprite where
  id : ℕ
  area : Rect ℤ
deriving DecidableEq

inductive SpriteBatchEntry where
  | sprite (sprite : Sprite) (source : Rect ℤ) (destination : Rect ℤ) (reversed : Bool)
  | fillRect (destination : Rect ℤ) (color : Color)
  | fillTriangle (p1 p2 p3 : Point ℤ) (color : Color)
  | line (start : Point ℤ) (stop : Point ℤ) (color : Color) (width : ℤ)
deriving DecidableEq

structure SpriteBatch where
  clear_color : Color
  entries : List SpriteBatchEntry
deriving DecidableEq

namespace SpriteBatch

def new : SpriteBatch := ⟨⟨0, 0, 0, 0⟩, []⟩

def draw (b : SpriteBatch) (sprite : Sprite) (dst src : Rect ℤ) (reversed : Bool) :
    SpriteBatch :=
  ⟨b.clear_color, b.entries ++ [.sprite sprite src dst reversed]⟩

def fill_rect (b : SpriteBatch) (rect : Rect ℤ) (color : Color) : SpriteBatch :=
  ⟨b.clear_color, b.entries ++ [.fillRect rect color]⟩

def fill_triangle (b : SpriteBatch) (p1 p2 p3 : Point ℤ) (color : Color) : SpriteBatch :=
  ⟨b.clear_color, b.entries ++ [.fillTriangle p1 p2 p3 color]⟩

/-- `SpriteBatch::draw_line`: horizontal and vertical segments become a
`fill_rect`; everything else pushes a `Line` entry.  `Int.tdiv` is Rust's
truncating `i32` division. -/
def draw_line (b : SpriteBatch) (point1 point2 : Point ℤ) (color : Color) (width : ℤ) :
    SpriteBatch :=
  if point1.y = point2.y then
    let rect : Rect ℤ :=
      if point2.x < point1.x then
        ⟨point2.x, point2.y - Int.tdiv width 2, point1.x - point2.x, width⟩
      else
        ⟨point1.x, point1.y - Int.tdiv width 2, point2.x - point1.x, width⟩
    b.fill_rect rect color
  else if point1.x = point2.x then
    let rect : Rect ℤ :=
      if point2.y < point1.y then
        ⟨point2.x - Int.tdiv width 2, point2.y, width, point1.y - point2.y⟩
      else
        ⟨point1.x - Int.tdiv width 2, point1.y, width, point2.y - point1.y⟩
    b.fill_rect rect color
  else
    ⟨b.clear_color, b.entries ++ [.line point1 point2 color width]⟩

end SpriteBatch

/-! ## Render context (`rendercontext.rs`) -/

structure Light where
  position : Point ℤ
  radius : ℤ
deriving DecidableEq

inductive RenderLayer where
  | player
  | hud
deriving DecidableEq

structure RenderContext where
  player_batch : SpriteBatch
  hud_batch : SpriteBatch
  width : ℕ
  height : ℕ
  frame : ℕ
  lights : List Light
  is_dark : Bool

namespace RenderContext

def new (width height frame : ℕ) : RenderContext :=
  ⟨SpriteBatch.new, SpriteBatch.new, width, height, frame, [], false⟩

def draw (c : RenderContext) (sprite : Sprite) (layer : RenderLayer) (dst src : Rect ℤ) :
    RenderContext :=
  match layer with
  | .player => { c with player_batch := c.player_batch.draw sprite dst src false }
  | .hud => { c with hud_batch := c.hud_batch.draw sprite dst src false }

def draw_reversed (c : RenderContext) (sprite : Sprite) (layer : RenderLayer)
    (dst src : Rect ℤ) : RenderContext :=
  match layer with
  | .player => { c with player_batch := c.player_batch.draw sprite dst src true }
  | .hud => { c with hud_batch := c.hud_batch.draw sprite dst src true }

def fill_rect (c : RenderContext) (rect : Rect ℤ) (layer : RenderLayer) (color : Color) :
    RenderContext :=
  match layer with
  | .player => { c with player_batch := c.player_batch.fill_rect rect color }
  | .hud => { c with hud_batch := c.hud_batch.fill_rect rect color }

def clear (c : RenderContext) : RenderContext :=
  { c with
    player_batch := ⟨⟨0, 0, 0, 255⟩, []⟩
    hud_batch := ⟨⟨0, 0, 0, 0⟩, []⟩ }

def add_light (c : RenderContext) (position : Point ℤ) (radius : ℤ) : RenderContext :=
  if MAX_LIGHTS ≤ c.lights.length then c
  else { c with lights := c.lights ++ [⟨position, radius⟩] }

end RenderContext

/-! ## Arc tessellation (`rendercontext.rs`, `fill_arc` / `fill_circle`) -/

/-- Rust's `f32 as i32` cast: truncation toward zero. -/
noncomputable def truncI (r : ℝ) : ℤ := if 0 ≤ r then ⌊r⌋ else ⌈r⌉

/-- The fixed angular step `(2.0 * PI) / (CIRCLE_STEPS as f32)`. -/
noncomputable def dtheta : ℝ := (2 * Real.pi) / (CIRCLE_STEPS : ℝ)

/-- The `while theta <= end_theta` loop body of `SpriteBatch::fill_arc`,
with the mutable loop state (`theta`, `current`, the batch) made explicit. -/
noncomputable def fillArcLoop (center : Point ℤ) (radius : ℝ) (end_theta : ℝ)
    (color : Color) (theta : ℝ) (current : Point ℝ) (b : SpriteBatch) : SpriteBatch :=
  if _h : theta ≤ end_theta then
    let next_theta := theta + dtheta
    let next : Point ℝ := ⟨Real.cos next_theta, Real.sin next_theta⟩
    let q1 := current.smul radius
    let q2 := next.smul radius
    let p1 : Point ℤ := Point.add ⟨truncI q1.x, truncI q1.y⟩ center
    let p2 : Point ℤ := Point.add ⟨truncI q2.x, truncI q2.y⟩ center
    fillArcLoop center radius end_theta color next_theta next
      (b.fill_triangle center p2 p1 color)
  else b
termination_by (⌊(end_theta - theta) / dtheta⌋ + 2).toNat
decreasing_by
  have hd : 0 < dtheta := by
    unfold dtheta CIRCLE_STEPS
    positivity
  have hu : 0 ≤ (end_theta - theta) / dtheta := div_nonneg (by linarith) hd.le
  have h1 : (end_theta - (theta + dtheta)) / dtheta = (end_theta - theta) / dtheta - 1 := by
    field_simp
    ring
  have h2 : (0 : ℤ) ≤ ⌊(end_theta - theta) / dtheta⌋ := Int.floor_nonneg.2 hu
  rw [h1, Int.floor_sub_one]
  omega

noncomputable def SpriteBatch.fill_arc (b : SpriteBatch) (center : Point ℤ) (radius : ℝ)
    (start_theta end_theta : ℝ) (color : Color) : SpriteBatch :=
  fillArcLoop center radius end_theta color start_theta
    ⟨Real.cos start_theta, Real.sin start_theta⟩ b

noncomputable def SpriteBatch.fill_circle (b : SpriteBatch) (center : Point ℤ) (radius : ℝ)
    (color : Color) : SpriteBatch :=
  b.fill_arc center radius 0 (2 * Real.pi) color

/-! ## Color parsing (`utils.rs`).

Strings are modelled as `List Char`; this matches Rust byte strings on the
ASCII inputs the parser is meant for.  `from_str_radix_u8` embeds
`u8::from_str_radix(s, 16)`: an optional leading `'+'` (the standard library
accepts it for unsigned integers), then hex digits accumulated with an
overflow check against `u8::MAX`; the error payload is collapsed to `Unit`. -/

def isHexDigit (c : Char) : Bool :=
  (48 ≤ c.toNat && c.toNat ≤ 57) || (97 ≤ c.toNat && c.toNat ≤ 102) ||
    (65 ≤ c.toNat && c.toNat ≤ 70)

def hexVal (c : Char) : ℕ :=
  if 48 ≤ c.toNat && c.toNat ≤ 57 then c.toNat - 48
  else if 97 ≤ c.toNat && c.toNat ≤ 102 then c.toNat - 97 + 10
  else c.toNat - 65 + 10

def parseHexDigitsU8 : List Char → ℕ → Except Unit ℕ
  | [], result => .ok result
  | c :: rest, result =>
    if isHexDigit c then
      let v := result * 16 + hexVal c
      if v ≤ 255 then parseHexDigitsU8 rest v else .error ()
    else .error ()

def from_str_radix_u8 (s : List Char) : Except Unit ℕ :=
  match s with
  | [] => .error ()
  | c :: rest =>
    if c = '+' then (if rest = [] then .error () else parseHexDigitsU8 rest 0)
    else parseHexDigitsU8 (c :: rest) 0

/-- `s.strip_prefix('#').unwrap_or(s)`. -/
def stripHash : List Char → List Char
  | '#' :: rest => rest
  | s => s

/-- `Color::from_str`: 6 hex chars parse as RGB with alpha 255; 8 hex chars
parse with the alpha byte first; anything else is an error. -/
def Color.from_str (s : List Char) : Except Unit Color :=
  let s := stripHash s
  if s.length = 6 then
    match from_str_radix_u8 (s.take 2), from_str_radix_u8 ((s.drop 2).take 2),
        from_str_radix_u8 ((s.drop 4).take 2) with
    | .ok r, .ok g, .ok b => .ok ⟨r, g, b, 255⟩
    | _, _, _ => .error ()
  else if s.length = 8 then
    match from_str_radix_u8 (s.take 2), from_str_radix_u8 ((s.drop 2).take 2),
        from_str_radix_u8 ((s.drop 4).take 2), from_str_radix_u8 ((s.drop 6).take 2) with
    | .ok a, .ok r, .ok g, .ok b => .ok ⟨r, g, b, a⟩
    | _, _, _, _ => .error ()
  else .error ()

/-- Spec-side predicate: a two-character group accepted by the u8 hex parser —
two hex digits, or a `'+'` followed by one hex digit. -/
def validU8HexPair (p : List Char) : Prop :=
  (∃ c1 c2, p = [c1, c2] ∧ isHexDigit c1 ∧ isHexDigit c2) ∨
    (∃ c2, p = ['+', c2] ∧ isHexDigit c2)

/-- Spec-side value of a two-character group accepted by the u8 hex parser. -/
def pairVal (p : List Char) : ℕ :=
  match p with
  | [c1, c2] => if c1 = '+' then hexVal c2 else 16 * hexVal c1 + hexVal c2
  | _ => 0

/-! ## Tiles and maps (`level.rs`) -/

inductive Tile where
  | empty
  | solid (color : Color)
deriving DecidableEq

def Tile.isSolid : Tile → Bool
  | .empty => false
  | .solid _ => true

structure Map where
  tiles : List (List Tile)
  width : ℕ
  height : ℕ
deriving DecidableEq

/-- Cell lookup `self.map.tiles[row][column]`.  The Rust indexing would panic
out of bounds; every use below is either guarded by the same bounds checks as
the source or evaluated on concrete in-bounds data, so a total lookup with an
`empty` default is a faithful embedding. -/
def Map.tile (m : Map) (row column : ℕ) : Tile :=
  (m.tiles.getD row []).getD column .empty

/-- Well-formedness of the `Vec<Vec<Tile>>` representation: `height` rows,
each of length `width`. -/
def Map.WF (m : Map) : Prop :=
  m.tiles.length = m.height ∧ ∀ row ∈ m.tiles, row.length = m.width

/-- The grid's outer one-tile ring consists entirely of solid tiles. -/
def Map.solidBorder (m : Map) : Prop :=
  ∀ r c, r < m.height → c < m.width →
    (r = 0 ∨ r = m.height - 1 ∨ c = 0 ∨ c = m.width - 1) → (m.tile r c).isSolid

structure Projection where
  x : ℝ
  y : ℝ
  color : Color
  normal : ℝ

/-- `float_eq`: absolute-tolerance comparison with `TOLERANCE = 1e-4`. -/
noncomputable def float_eq (f1 f2 : ℝ) : Prop := |f2 - f1| < TOLERANCE

noncomputable instance (f1 f2 : ℝ) : Decidable (float_eq f1 f2) := by
  unfold float_eq
  infer_instance

/-- Rust's `f32 as usize` cast on the values arising here: truncation toward
zero, saturating at 0 for negative inputs. -/
noncomputable def toUsize (r : ℝ) : ℕ := (⌊r⌋).toNat

/-- `Level::project2`, the recursive cell-to-cell ray walk, embedded with an
explicit recursion budget `fuel` (the Rust recursion has no structural
termination argument).  Result `none` means the budget was exhausted;
`some none` is the source's `None` (ray escaped the grid); `some (some p)` is a
hit.  The optional `path` out-parameter of the source only records visited
cells and never influences control flow or the returned projection, so it is
omitted. -/
noncomputable def project2F (m : Map) :
    ℕ → ℝ → ℕ → ℕ → ℝ → ℝ → ℝ → Option (Option Projection)
  | 0, _, _, _, _, _, _ => none
  | fuel + 1, angle, row, column, x, y, normal =>
    if m.height ≤ row ∨ m.width ≤ column then some none
    else
      match m.tile row column with
      | .solid color => some (some ⟨(column : ℝ) + x, (row : ℝ) + y, color, normal⟩)
      | .empty =>
        if float_eq angle 0 then
          project2F m fuel angle row (column + 1) 0 y Real.pi
        else if float_eq angle Real.pi then
          (if column = 0 then some none
           else project2F m fuel angle row (column - 1) 1 y 0)
        else if float_eq angle (Real.pi / 2) then
          project2F m fuel angle (row + 1) column x 0 (3 * (Real.pi / 2))
        else if float_eq angle (3 * (Real.pi / 2)) then
          (if row = 0 then some none
           else project2F m fuel angle (row - 1) column x 1 (Real.pi / 2))
        else if angle < Real.pi then
          -- pointing downish
          let x_intercept := x + (1 - y) / Real.tan angle
          if x_intercept < 0 then
            (if column = 0 then some none
             else project2F m fuel angle row (column - 1) 1
               (1 - ((1 - y) + x * Real.tan angle)) 0)
          else if x_intercept < 1 then
            project2F m fuel angle (row + 1) column x_intercept 0 (3 * (Real.pi / 2))
          else
            project2F m fuel angle row (column + 1) 0
              (y + (1 - x) * Real.tan angle) Real.pi
        else
          -- pointing upish
          let up_angle := TAU - angle
          let x_intercept := x + y / Real.tan up_angle
          if x_intercept < 0 then
            (if column = 0 then some none
             else project2F m fuel angle row (column - 1) 1
               (1 - ((1 - y) - x * Real.tan up_angle)) 0)
          else if x_intercept < 1 then
            (if row = 0 then some none
             else project2F m fuel angle (row - 1) column x_intercept 1 (Real.pi / 2))
          else
            project2F m fuel angle row (column + 1) 0
              (y - (1 - x) * Real.tan up_angle) Real.pi

/-- `Level::project`: split the start point into cell indices and in-cell
offsets and start the walk with `normal = -angle`. -/
noncomputable def projectF (m : Map) (fuel : ℕ) (angle x y : ℝ) :
    Option (Option Projection) :=
  let column := toUsize x
  let row := toUsize y
  project2F m fuel angle row column (x - (column : ℝ)) (y - (row : ℝ)) (-angle)

/-- Spec-side abbreviation for C1: the walk from the given state returns a hit
(within the budget) whose coordinate lies in the grid's bounding rectangle. -/
noncomputable def projHits (m : Map) (fuel : ℕ) (angle : ℝ) (row col : ℕ) (x y n : ℝ) :
    Prop :=
  ∃ p : Projection, project2F m fuel angle row col x y n = some (some p) ∧
    0 ≤ p.x ∧ p.x ≤ (m.width : ℝ) ∧ 0 ≤ p.y ∧ p.y ≤ (m.height : ℝ)

/-! ## Player movement (`level.rs`, `scene.rs`) -/

/-- Modelled from the spec: the per-frame snapshot of boolean input intents
(`InputSnapshot` lives in the input collaborator, whose source is not part of
this repository snapshot); only the fields read by `Level::update` are
modelled. -/
structure InputSnapshot where
  ok_clicked : Bool
  player_turn_left_down : Bool
  player_turn_right_down : Bool
  player_forward_down : Bool
  player_backward_down : Bool
  player_strafe_left_down : Bool
  player_strafe_right_down : Bool

inductive SceneResult where
  | continue_
  | pop
  | popTwo
  | pushMenu
  | pushLevel
  | reloadLevel
  | pushKillScreen (text : List Char)
  | pushPause

def helloText : List Char := ['h', 'e', 'l', 'l', 'o', ' ', 'w', 'o', 'r', 'l', 'd']

structure Level where
  map : Map
  player_x : ℝ
  player_y : ℝ
  player_angle : ℝ

namespace Level

/-- `Level::can_move_to`: the occupied cell must be empty, and whenever the
fractional offset is within half the player's footprint of a cell edge, the
neighbor across that edge must exist and be empty.  Each conjunct is the
negation of one early-`return false` in the source. -/
noncomputable def can_move_to (l : Level) (x y : ℝ) : Prop :=
  let lower_bound := PLAYER_SIZE / 2
  let upper_bound := 1 - PLAYER_SIZE / 2
  let row := toUsize y
  let col := toUsize x
  let x_frac := x - (col : ℝ)
  let y_frac := y - (row : ℝ)
  l.map.tile row col = .empty ∧
    (x_frac < lower_bound → col ≠ 0 ∧ l.map.tile row (col - 1) = .empty) ∧
    (y_frac < lower_bound → row ≠ 0 ∧ l.map.tile (row - 1) col = .empty) ∧
    (upper_bound < x_frac → col < l.map.width - 1 ∧ l.map.tile row (col + 1) = .empty) ∧
    (upper_bound < y_frac → row < l.map.height - 1 ∧ l.map.tile (row + 1) col = .empty)

noncomputable instance (l : Level) (x y : ℝ) : Decidable (l.can_move_to x y) := by
  unfold can_move_to
  infer_instance

end Level

/-- The `while self.player_angle >= TAU` normalization loop. -/
noncomputable def normAngleDown (a : ℝ) : ℝ :=
  if TAU ≤ a then normAngleDown (a - TAU) else a
termination_by (⌊a / TAU⌋).toNat
decreasing_by
  have ht : (0 : ℝ) < TAU := by
    unfold TAU
    positivity
  have h1 : (a - TAU) / TAU = a / TAU - 1 := by
    field_simp
  have h2 : (1 : ℤ) ≤ ⌊a / TAU⌋ :=
    Int.le_floor.2 (by rw [le_div_iff₀ ht]; simpa using ‹TAU ≤ a›)
  rw [h1, Int.floor_sub_one]
  omega

/-- The `while self.player_angle < 0.0` normalization loop. -/
noncomputable def normAngleUp (a : ℝ) : ℝ :=
  if a < 0 then normAngleUp (a + TAU) else a
termination_by (⌈-a / TAU⌉).toNat
decreasing_by
  have ht : (0 : ℝ) < TAU := by
    unfold TAU
    positivity
  have h1 : -(a + TAU) / TAU = -a / TAU - 1 := by
    field_simp
    ring
  have h2 : (0 : ℤ) < ⌈-a / TAU⌉ :=
    Int.ceil_pos.2 (div_pos (by linarith [‹a < 0›]) ht)
  rw [h1, Int.ceil_sub_one]
  omega

namespace Level

/-- The heading after `Level::update`'s turn inputs and the two normalization
loops. -/
noncomputable def turnedAngle (l : Level) (inputs : InputSnapshot) : ℝ :=
  let a1 := if inputs.player_turn_left_down then l.player_angle - TURN_SPEED else l.player_angle
  let a2 := if inputs.player_turn_right_down then a1 + TURN_SPEED else a1
  normAngleUp (normAngleDown a2)

/-- The accumulated x-component of the move vector in `Level::update`. -/
noncomputable def moveDx (l : Level) (inputs : InputSnapshot) : ℝ :=
  let a := l.turnedAngle inputs
  (if inputs.player_forward_down then MOVE_SPEED * Real.cos a else 0) +
    (if inputs.player_backward_down then -(MOVE_SPEED * Real.cos a) else 0) +
    (if inputs.player_strafe_left_down then MOVE_SPEED * Real.sin a else 0) +
    (if inputs.player_strafe_right_down then -(MOVE_SPEED * Real.sin a) else 0)

/-- The accumulated y-component of the move vector in `Level::update`. -/
noncomputable def moveDy (l : Level) (inputs : InputSnapshot) : ℝ :=
  let a := l.turnedAngle inputs
  (if inputs.player_forward_down then MOVE_SPEED * Real.sin a else 0) +
    (if inputs.player_backward_down then -(MOVE_SPEED * Real.sin a) else 0) +
    (if inputs.player_strafe_left_down then -(MOVE_SPEED * Real.cos a) else 0) +
    (if inputs.player_strafe_right_down then MOVE_SPEED * Real.cos a else 0)

/-- `Level::update` (`impl Scene for Level`): early kill-screen exit on
`ok_clicked`, then turn + normalize, then the y- and x-components of the move
are applied independently, each gated by `can_move_to` (the x check runs
against the already-updated y). -/
noncomputable def update (l : Level) (inputs : InputSnapshot) : Level × SceneResult :=
  if inputs.ok_clicked then (l, .pushKillScreen helloText)
  else
    let angle := l.turnedAngle inputs
    let dx := l.moveDx inputs
    let dy := l.moveDy inputs
    let y1 := if l.can_move_to l.player_x (l.player_y + dy) then l.player_y + dy else l.player_y
    -- `can_move_to` reads only the map, so the updated `player_y` feeding the
    -- second check is passed explicitly as `y1`.
    let x1 := if l.can_move_to (l.player_x + dx) y1 then l.player_x + dx else l.player_x
    (⟨l.map, x1, y1, angle⟩, .continue_)

end Level

/-! ## Concrete fixtures used by witnesses and counterexamples -/

def white : Color := ⟨255, 255, 255, 255⟩

def blue : Color := ⟨0, 0, 255, 255⟩

def red : Color := ⟨255, 0, 0, 255⟩

/-- A 5×5 grid: solid white border ring, empty interior. -/
def map5 : Map :=
  ⟨[[.solid white, .solid white, .solid white, .solid white, .solid white],
    [.solid white, .empty, .empty, .empty, .solid white],
    [.solid white, .empty, .empty, .empty, .solid white],
    [.solid white, .empty, .empty, .empty, .solid white],
    [.solid white, .solid white, .solid white, .solid white, .solid white]], 5, 5⟩

/-- A 3×3 grid: solid white border ring around a single empty center cell. -/
def map3 : Map :=
  ⟨[[.solid white, .solid white, .solid white],
    [.solid white, .empty, .solid white],
    [.solid white, .solid white, .solid white]], 3, 3⟩

/-- A 3×3 grid whose center is empty, with a blue tile to its left and a red
tile below it (the rest of the border is white). -/
def mapC3 : Map :=
  ⟨[[.solid white, .solid white, .solid white],
    [.solid blue, .empty, .solid white],
    [.solid white, .solid red, .solid white]], 3, 3⟩

/-- A 4×4 grid: solid white border ring, empty 2×2 interior. -/
def map4 : Map :=
  ⟨[[.solid white, .solid white, .solid white, .solid white],
    [.solid white, .empty, .empty, .solid white],
    [.solid white, .empty, .empty, .solid white],
    [.solid white, .solid white, .solid white, .solid white]], 4, 4⟩

/-- A batch already holding `MAX_ENTRIES` entries. -/
def bigBatch : SpriteBatch :=
  ⟨⟨0, 0, 0, 0⟩, List.replicate MAX_ENTRIES (.fillRect ⟨0, 0, 1, 1⟩ ⟨0, 0, 0, 0⟩)⟩

/-- Inputs for the sliding scenario: forward and strafe-right held, nothing
else. -/
def inputsC6 : InputSnapshot := ⟨false, false, false, true, false, false, true⟩

/-- A player inside `map4` just above the bottom wall, facing right. -/
noncomputable def levelC6 : Level := ⟨map4, 1.5, 2.57, 0⟩

/-! # Theorems -/

/-! ## C7: `Rect::intersects` symmetry and closed-interval semantics -/

/-- C7: for rectangles with non-negative extents `intersects` is symmetric,
and two rectangles sharing exactly one corner point (the first's bottom-right
equals the second's top-left) are reported as intersecting. -/
theorem rect_intersects_symm_closed (a b : Rect ℤ)
    (ha : 0 ≤ a.w) (hb : 0 ≤ a.h) (hc : 0 ≤ b.w) (hd : 0 ≤ b.h) :
    (a.intersects b ↔ b.intersects a) ∧
      (a.right = b.left → a.bottom = b.top → a.intersects b) := by
  unfold Rect.intersects Rect.left Rect.right Rect.top Rect.bottom
  constructor
  · constructor <;> rintro ⟨h1, h2, h3, h4⟩ <;> exact ⟨h2, h1, h4, h3⟩
  · intro h1 h2
    refine ⟨?_, ?_, ?_, ?_⟩ <;> omega

/-- C7 witness: a unit square at the origin and a 2×2 square touching it at
the single corner point (1,1). -/
theorem rect_intersects_symm_closed_witness :
    ((Rect.mk 0 0 1 1 : Rect ℤ).intersects ⟨1, 1, 2, 2⟩ ↔
        (Rect.mk 1 1 2 2 : Rect ℤ).intersects ⟨0, 0, 1, 1⟩) ∧
      ((Rect.mk 0 0 1 1 : Rect ℤ).right = (Rect.mk 1 1 2 2 : Rect ℤ).left →
        (Rect.mk 0 0 1 1 : Rect ℤ).bottom = (Rect.mk 1 1 2 2 : Rect ℤ).top →
        (Rect.mk 0 0 1 1 : Rect ℤ).intersects ⟨1, 1, 2, 2⟩) :=
  rect_intersects_symm_closed ⟨0, 0, 1, 1⟩ ⟨1, 1, 2, 2⟩
    (by norm_num) (by norm_num) (by norm_num) (by norm_num)

/-! ## C10: the light-list cap in `RenderContext::add_light` -/

/-- C10: `add_light` appends only while fewer than `MAX_LIGHTS` lights are
present, leaves the context unchanged (without panicking) once the list is at
`MAX_LIGHTS`, and no other `RenderContext` operation touches the lights list,
so `lights.len() ≤ MAX_LIGHTS` is an invariant. -/
theorem add_light_bounded (c : RenderContext) (p : Point ℤ) (r : ℤ)
    (hinv : c.lights.length ≤ MAX_LIGHTS) :
    (c.add_light p r).lights.length ≤ MAX_LIGHTS ∧
      (c.lights.length = MAX_LIGHTS → c.add_light p r = c) ∧
      (c.lights.length < MAX_LIGHTS →
        (c.add_light p r).lights = c.lights ++ [⟨p, r⟩]) ∧
      (∀ s layer dst src, (c.draw s layer dst src).lights = c.lights) ∧
      (∀ s layer dst src, (c.draw_reversed s layer dst src).lights = c.lights) ∧
      (∀ rect layer color, (c.fill_rect rect layer color).lights = c.lights) ∧
      c.clear.lights = c.lights := by
  refine ⟨?_, ?_, ?_, ?_, ?_, ?_, rfl⟩
  · unfold RenderContext.add_light
    by_cases h : MAX_LIGHTS ≤ c.lights.length
    · rw [if_pos h]
      omega
    · rw [if_neg h]
      simp only [List.length_append, List.length_singleton]
      omega
  · intro h
    unfold RenderContext.add_light
    rw [if_pos (le_of_eq h.symm)]
  · intro h
    unfold RenderContext.add_light
    rw [if_neg (by omega)]
  · intro s layer dst src
    cases layer <;> rfl
  · intro s layer dst src
    cases layer <;> rfl
  · intro rect layer color
    cases layer <;> rfl

/-- C10 witness: a fresh context (0 lights) satisfies the invariant and the
theorem applies to it. -/
theorem add_light_bounded_witness :
    (RenderContext.new 320 200 0).lights.length ≤ MAX_LIGHTS ∧
      (((RenderContext.new 320 200 0).add_light ⟨1, 2⟩ 3).lights.length ≤ MAX_LIGHTS ∧
        ((RenderContext.new 320 200 0).lights.length = MAX_LIGHTS →
          (RenderContext.new 320 200 0).add_light ⟨1, 2⟩ 3 = RenderContext.new 320 200 0) ∧
        ((RenderContext.new 320 200 0).lights.length < MAX_LIGHTS →
          ((RenderContext.new 320 200 0).add_light ⟨1, 2⟩ 3).lights =
            (RenderContext.new 320 200 0).lights ++ [⟨⟨1, 2⟩, 3⟩]) ∧
        (∀ s layer dst src,
          ((RenderContext.new 320 200 0).draw s layer dst src).lights =
            (RenderContext.new 320 200 0).lights) ∧
        (∀ s layer dst src,
          ((RenderContext.new 320 200 0).draw_reversed s layer dst src).lights =
            (RenderContext.new 320 200 0).lights) ∧
        (∀ rect layer color,
          ((RenderContext.new 320 200 0).fill_rect rect layer color).lights =
            (RenderContext.new 320 200 0).lights) ∧
        (RenderContext.new 320 200 0).clear.lights = (RenderContext.new 320 200 0).lights) :=
  ⟨by decide, add_light_bounded (RenderContext.new 320 200 0) ⟨1, 2⟩ 3 (by decide)⟩

/-! ## C9: the draw batch has no append-time capacity -/

/-- C9 counterexample: a batch already at the renderer's `MAX_ENTRIES` cap
still grows when `fill_rect` is called — the excess entry is buffered, not
dropped, so no append-time capacity check exists. -/
theorem batch_capacity_counterexample :
    (bigBatch.fill_rect ⟨0, 0, 1, 1⟩ ⟨0, 0, 0, 0⟩).entries.length = MAX_ENTRIES + 1 ∧
      (bigBatch.fill_rect ⟨0, 0, 1, 1⟩ ⟨0, 0, 0, 0⟩).entries ≠ bigBatch.entries := by
  constructor
  · simp [bigBatch, SpriteBatch.fill_rect]
  · intro h
    have hl := congrArg List.length h
    simp [SpriteBatch.fill_rect] at hl

/-- C9 (amended): every append operation on `SpriteBatch` appends its entry
unconditionally — there is no capacity check, detection, or dropping at append
time; the entry list always grows by exactly one. -/
theorem batch_append_unconditional (b : SpriteBatch) :
    (∀ s dst src rev,
      (b.draw s dst src rev).entries = b.entries ++ [.sprite s src dst rev]) ∧
      (∀ rect color, (b.fill_rect rect color).entries = b.entries ++ [.fillRect rect color]) ∧
      (∀ p1 p2 p3 color,
        (b.fill_triangle p1 p2 p3 color).entries = b.entries ++ [.fillTriangle p1 p2 p3 color]) ∧
      (∀ p1 p2 color width,
        (b.draw_line p1 p2 color width).entries.length = b.entries.length + 1) := by
  refine ⟨fun s dst src rev => rfl, fun rect color => rfl, fun p1 p2 p3 color => rfl, ?_⟩
  intro p1 p2 color width
  unfold SpriteBatch.draw_line
  by_cases hy : p1.y = p2.y
  · rw [if_pos hy]
    by_cases hx : p2.x < p1.x <;> simp [hx, SpriteBatch.fill_rect]
  · rw [if_neg hy]
    by_cases hx : p1.x = p2.x
    · rw [if_pos hx]
      by_cases hy2 : p2.y < p1.y <;> simp [hy2, SpriteBatch.fill_rect]
    · rw [if_neg hx]
      simp

/-! ## C4: `draw_line` on axis-aligned segments -/

/-- C4: a segment with equal y-coordinates always becomes a single `FillRect`
entry (never a `Line`), whose height is the stroke width and whose y is the
line's y minus `width / 2` (truncating division, centering the stroke);
symmetrically a segment with equal x-coordinates always becomes a single
`FillRect` entry. -/
theorem draw_line_axis_aligned (b : SpriteBatch) (p1 p2 : Point ℤ) (color : Color)
    (width : ℤ) :
    (p1.y = p2.y →
      ∃ r, (b.draw_line p1 p2 color width).entries = b.entries ++ [.fillRect r color] ∧
        r.h = width ∧ r.y = p1.y - Int.tdiv width 2) ∧
      (p1.x = p2.x →
        ∃ r, (b.draw_line p1 p2 color width).entries = b.entries ++ [.fillRect r color]) := by
  constructor
  · intro hy
    unfold SpriteBatch.draw_line
    rw [if_pos hy]
    by_cases hx : p2.x < p1.x
    · rw [if_pos hx]
      exact ⟨⟨p2.x, p2.y - Int.tdiv width 2, p1.x - p2.x, width⟩, rfl, rfl, by rw [hy]⟩
    · rw [if_neg hx]
      exact ⟨⟨p1.x, p1.y - Int.tdiv width 2, p2.x - p1.x, width⟩, rfl, rfl, rfl⟩
  · intro hx
    unfold SpriteBatch.draw_line
    by_cases hy : p1.y = p2.y
    · rw [if_pos hy]
      by_cases hx2 : p2.x < p1.x
      · rw [if_pos hx2]
        exact ⟨⟨p2.x, p2.y - Int.tdiv width 2, p1.x - p2.x, width⟩, rfl⟩
      · rw [if_neg hx2]
        exact ⟨⟨p1.x, p1.y - Int.tdiv width 2, p2.x - p1.x, width⟩, rfl⟩
    · rw [if_neg hy, if_pos hx]
      by_cases hy2 : p2.y < p1.y
      · rw [if_pos hy2]
        exact ⟨⟨p2.x - Int.tdiv width 2, p2.y, width, p1.y - p2.y⟩, rfl⟩
      · rw [if_neg hy2]
        exact ⟨⟨p1.x - Int.tdiv width 2, p1.y, width, p2.y - p1.y⟩, rfl⟩

/-- C4 witness: the degenerate segment from (1,5) to (1,5) with width 0 — both
the equal-y and equal-x cases apply and yield a single `FillRect` entry. -/
theorem draw_line_axis_aligned_witness :
    (∃ r, (SpriteBatch.new.draw_line ⟨1, 5⟩ ⟨1, 5⟩ white 0).entries =
        SpriteBatch.new.entries ++ [.fillRect r white] ∧
        r.h = 0 ∧ r.y = (Point.mk 1 5 : Point ℤ).y - Int.tdiv 0 2) ∧
      (∃ r, (SpriteBatch.new.draw_line ⟨1, 5⟩ ⟨1, 5⟩ white 0).entries =
        SpriteBatch.new.entries ++ [.fillRect r white]) :=
  ⟨(draw_line_axis_aligned SpriteBatch.new ⟨1, 5⟩ ⟨1, 5⟩ white 0).1 rfl,
    (draw_line_axis_aligned SpriteBatch.new ⟨1, 5⟩ ⟨1, 5⟩ white 0).2 rfl⟩

/-! ## C5: arc tessellation count -/

theorem dtheta_pos : 0 < dtheta := by
  unfold dtheta CIRCLE_STEPS
  positivity

theorem circle_steps_mul_dtheta : (CIRCLE_STEPS : ℝ) * dtheta = 2 * Real.pi := by
  unfold dtheta CIRCLE_STEPS
  field_simp

/-- The `fill_arc` loop over the full-circle range runs once per step index
`k` with `k * dtheta ≤ 2π`, i.e. for `k = 0, …, CIRCLE_STEPS` — that is
`CIRCLE_STEPS + 1` iterations, each appending one triangle. -/
theorem fillArcLoop_count (center : Point ℤ) (radius : ℝ) (color : Color) :
    ∀ n k : ℕ, n + k = CIRCLE_STEPS + 1 → ∀ (cur : Point ℝ) (b : SpriteBatch),
      (fillArcLoop center radius (2 * Real.pi) color ((k : ℝ) * dtheta) cur b).entries.length =
        b.entries.length + n := by
  intro n
  induction n with
  | zero =>
    intro k hk cur b
    have hk51 : k = CIRCLE_STEPS + 1 := by omega
    have hgt : ¬((k : ℝ) * dtheta ≤ 2 * Real.pi) := by
      rw [hk51, not_le, ← circle_steps_mul_dtheta]
      push_cast
      nlinarith [dtheta_pos]
    rw [fillArcLoop, dif_neg hgt]
    omega
  | succ n ih =>
    intro k hk cur b
    have hk50 : k ≤ CIRCLE_STEPS := by omega
    have hle : (k : ℝ) * dtheta ≤ 2 * Real.pi := by
      rw [← circle_steps_mul_dtheta]
      have : (k : ℝ) ≤ (CIRCLE_STEPS : ℝ) := by exact_mod_cast hk50
      nlinarith [dtheta_pos]
    rw [fillArcLoop, dif_pos hle]
    have hstep : (k : ℝ) * dtheta + dtheta = ((k + 1 : ℕ) : ℝ) * dtheta := by
      push_cast
      ring
    rw [hstep, ih (k + 1) (by omega)]
    simp [SpriteBatch.fill_triangle]
    omega

/-- Entry-count of `fill_circle`: `CIRCLE_STEPS + 1` triangles, independent of
center, radius and color. -/
theorem fill_circle_count (b : SpriteBatch) (center : Point ℤ) (radius : ℝ)
    (color : Color) :
    (b.fill_circle center radius color).entries.length =
      b.entries.length + (CIRCLE_STEPS + 1) := by
  unfold SpriteBatch.fill_circle SpriteBatch.fill_arc
  have h := fillArcLoop_count center radius color (CIRCLE_STEPS + 1) 0 (by omega)
    ⟨Real.cos 0, Real.sin 0⟩ b
  simpa using h

/-- C5 counterexample: on a concrete batch, circle and radius, `fill_circle`
appends 51 triangles, not `CIRCLE_STEPS = 50` — the terminal loop iteration at
`theta = 2π` still fires because the guard is `theta <= end_theta`. -/
theorem fill_circle_count_counterexample :
    (SpriteBatch.new.fill_circle ⟨0, 0⟩ 1 white).entries.length = CIRCLE_STEPS + 1 ∧
      CIRCLE_STEPS + 1 ≠ CIRCLE_STEPS := by
  constructor
  · have h := fill_circle_count SpriteBatch.new ⟨0, 0⟩ 1 white
    simpa [SpriteBatch.new] using h
  · decide

/-- C5 (amended): for every batch, center point, radius and color,
`fill_circle` (i.e. `fill_arc` over `[0, 2π]` starting at θ = 0) appends
exactly `CIRCLE_STEPS + 1 = 51` FillTriangle entries, and the number of
entries appended does not depend on the radius. -/
theorem fill_circle_appends_fifty_one (b : SpriteBatch) (center : Point ℤ) (radius : ℝ)
    (color : Color) :
    (b.fill_circle center radius color).entries.length =
      b.entries.length + (CIRCLE_STEPS + 1) :=
  fill_circle_count b center radius color

/-! ## Step lemmas for `project2F`, one per branch of the recursion -/

theorem project2F_oob {m : Map} {fuel : ℕ} {angle : ℝ} {row col : ℕ} {x y n : ℝ}
    (h : m.height ≤ row ∨ m.width ≤ col) :
    project2F m (fuel + 1) angle row col x y n = some none := by
  simp only [project2F]
  rw [if_pos h]

theorem project2F_solid {m : Map} {fuel : ℕ} {angle : ℝ} {row col : ℕ} {x y n : ℝ}
    {color : Color} (hb : ¬(m.height ≤ row ∨ m.width ≤ col))
    (ht : m.tile row col = .solid color) :
    project2F m (fuel + 1) angle row col x y n =
      some (some ⟨(col : ℝ) + x, (row : ℝ) + y, color, n⟩) := by
  simp only [project2F]
  rw [if_neg hb]
  simp only [ht]

theorem project2F_card_right {m : Map} {fuel : ℕ} {angle : ℝ} {row col : ℕ} {x y n : ℝ}
    (hb : ¬(m.height ≤ row ∨ m.width ≤ col)) (ht : m.tile row col = .empty)
    (h0 : float_eq angle 0) :
    project2F m (fuel + 1) angle row col x y n =
      project2F m fuel angle row (col + 1) 0 y Real.pi := by
  simp only [project2F]
  rw [if_neg hb]
  simp only [ht]
  rw [if_pos h0]

theorem project2F_card_left {m : Map} {fuel : ℕ} {angle : ℝ} {row col : ℕ} {x y n : ℝ}
    (hb : ¬(m.height ≤ row ∨ m.width ≤ col)) (ht : m.tile row col = .empty)
    (h0 : ¬float_eq angle 0) (hpi : float_eq angle Real.pi) :
    project2F m (fuel + 1) angle row col x y n =
      (if col = 0 then some none else project2F m fuel angle row (col - 1) 1 y 0) := by
  simp only [project2F]
  rw [if_neg hb]
  simp only [ht]
  rw [if_neg h0, if_pos hpi]

theorem project2F_card_down {m : Map} {fuel : ℕ} {angle : ℝ} {row col : ℕ} {x y n : ℝ}
    (hb : ¬(m.height ≤ row ∨ m.width ≤ col)) (ht : m.tile row col = .empty)
    (h0 : ¬float_eq angle 0) (hpi : ¬float_eq angle Real.pi)
    (hh : float_eq angle (Real.pi / 2)) :
    project2F m (fuel + 1) angle row col x y n =
      project2F m fuel angle (row + 1) col x 0 (3 * (Real.pi / 2)) := by
  simp only [project2F]
  rw [if_neg hb]
  simp only [ht]
  rw [if_neg h0, if_neg hpi, if_pos hh]

theorem project2F_card_up {m : Map} {fuel : ℕ} {angle : ℝ} {row col : ℕ} {x y n : ℝ}
    (hb : ¬(m.height ≤ row ∨ m.width ≤ col)) (ht : m.tile row col = .empty)
    (h0 : ¬float_eq angle 0) (hpi : ¬float_eq angle Real.pi)
    (hh : ¬float_eq angle (Real.pi / 2)) (h3 : float_eq angle (3 * (Real.pi / 2))) :
    project2F m (fuel + 1) angle row col x y n =
      (if row = 0 then some none
       else project2F m fuel angle (row - 1) col x 1 (Real.pi / 2)) := by
  simp only [project2F]
  rw [if_neg hb]
  simp only [ht]
  rw [if_neg h0, if_neg hpi, if_neg hh, if_pos h3]

theorem project2F_down_left {m : Map} {fuel : ℕ} {angle : ℝ} {row col : ℕ} {x y n : ℝ}
    (hb : ¬(m.height ≤ row ∨ m.width ≤ col)) (ht : m.tile row col = .empty)
    (h0 : ¬float_eq angle 0) (hpi : ¬float_eq angle Real.pi)
    (hh : ¬float_eq angle (Real.pi / 2)) (h3 : ¬float_eq angle (3 * (Real.pi / 2)))
    (hdown : angle < Real.pi) (hxi : x + (1 - y) / Real.tan angle < 0) :
    project2F m (fuel + 1) angle row col x y n =
      (if col = 0 then some none
       else project2F m fuel angle row (col - 1) 1
         (1 - ((1 - y) + x * Real.tan angle)) 0) := by
  simp only [project2F]
  rw [if_neg hb]
  simp only [ht]
  rw [if_neg h0, if_neg hpi, if_neg hh, if_neg h3, if_pos hdown]
  rw [if_pos hxi]

theorem project2F_down_bottom {m : Map} {fuel : ℕ} {angle : ℝ} {row col : ℕ} {x y n : ℝ}
    (hb : ¬(m.height ≤ row ∨ m.width ≤ col)) (ht : m.tile row col = .empty)
    (h0 : ¬float_eq angle 0) (hpi : ¬float_eq angle Real.pi)
    (hh : ¬float_eq angle (Real.pi / 2)) (h3 : ¬float_eq angle (3 * (Real.pi / 2)))
    (hdown : angle < Real.pi) (hxi0 : ¬(x + (1 - y) / Real.tan angle < 0))
    (hxi1 : x + (1 - y) / Real.tan angle < 1) :
    project2F m (fuel + 1) angle row col x y n =
      project2F m fuel angle (row + 1) col (x + (1 - y) / Real.tan angle) 0
        (3 * (Real.pi / 2)) := by
  simp only [project2F]
  rw [if_neg hb]
  simp only [ht]
  rw [if_neg h0, if_neg hpi, if_neg hh, if_neg h3, if_pos hdown]
  rw [if_neg hxi0, if_pos hxi1]

theorem project2F_down_right {m : Map} {fuel : ℕ} {angle : ℝ} {row col : ℕ} {x y n : ℝ}
    (hb : ¬(m.height ≤ row ∨ m.width ≤ col)) (ht : m.tile row col = .empty)
    (h0 : ¬float_eq angle 0) (hpi : ¬float_eq angle Real.pi)
    (hh : ¬float_eq angle (Real.pi / 2)) (h3 : ¬float_eq angle (3 * (Real.pi / 2)))
    (hdown : angle < Real.pi) (hxi0 : ¬(x + (1 - y) / Real.tan angle < 0))
    (hxi1 : ¬(x + (1 - y) / Real.tan angle < 1)) :
    project2F m (fuel + 1) angle row col x y n =
      project2F m fuel angle row (col + 1) 0 (y + (1 - x) * Real.tan angle) Real.pi := by
  simp only [project2F]
  rw [if_neg hb]
  simp only [ht]
  rw [if_neg h0, if_neg hpi, if_neg hh, if_neg h3, if_pos hdown]
  rw [if_neg hxi0, if_neg hxi1]

theorem project2F_up_left {m : Map} {fuel : ℕ} {angle : ℝ} {row col : ℕ} {x y n : ℝ}
    (hb : ¬(m.height ≤ row ∨ m.width ≤ col)) (ht : m.tile row col = .empty)
    (h0 : ¬float_eq angle 0) (hpi : ¬float_eq angle Real.pi)
    (hh : ¬float_eq angle (Real.pi / 2)) (h3 : ¬float_eq angle (3 * (Real.pi / 2)))
    (hup : ¬(angle < Real.pi)) (hxi : x + y / Real.tan (TAU - angle) < 0) :
    project2F m (fuel + 1) angle row col x y n =
      (if col = 0 then some none
       else project2F m fuel angle row (col - 1) 1
         (1 - ((1 - y) - x * Real.tan (TAU - angle))) 0) := by
  simp only [project2F]
  rw [if_neg hb]
  simp only [ht]
  rw [if_neg h0, if_neg hpi, if_neg hh, if_neg h3, if_neg hup]
  rw [if_pos hxi]

theorem project2F_up_top {m : Map} {fuel : ℕ} {angle : ℝ} {row col : ℕ} {x y n : ℝ}
    (hb : ¬(m.height ≤ row ∨ m.width ≤ col)) (ht : m.tile row col = .empty)
    (h0 : ¬float_eq angle 0) (hpi : ¬float_eq angle Real.pi)
    (hh : ¬float_eq angle (Real.pi / 2)) (h3 : ¬float_eq angle (3 * (Real.pi / 2)))
    (hup : ¬(angle < Real.pi)) (hxi0 : ¬(x + y / Real.tan (TAU - angle) < 0))
    (hxi1 : x + y / Real.tan (TAU - angle) < 1) :
    project2F m (fuel + 1) angle row col x y n =
      (if row = 0 then some none
       else project2F m fuel angle (row - 1) col (x + y / Real.tan (TAU - angle)) 1
         (Real.pi / 2)) := by
  simp only [project2F]
  rw [if_neg hb]
  simp only [ht]
  rw [if_neg h0, if_neg hpi, if_neg hh, if_neg h3, if_neg hup]
  rw [if_neg hxi0, if_pos hxi1]

theorem project2F_up_right {m : Map} {fuel : ℕ} {angle : ℝ} {row col : ℕ} {x y n : ℝ}
    (hb : ¬(m.height ≤ row ∨ m.width ≤ col)) (ht : m.tile row col = .empty)
    (h0 : ¬float_eq angle 0) (hpi : ¬float_eq angle Real.pi)
    (hh : ¬float_eq angle (Real.pi / 2)) (h3 : ¬float_eq angle (3 * (Real.pi / 2)))
    (hup : ¬(angle < Real.pi)) (hxi0 : ¬(x + y / Real.tan (TAU - angle) < 0))
    (hxi1 : ¬(x + y / Real.tan (TAU - angle) < 1)) :
    project2F m (fuel + 1) angle row col x y n =
      project2F m fuel angle row (col + 1) 0 (y - (1 - x) * Real.tan (TAU - angle))
        Real.pi := by
  simp only [project2F]
  rw [if_neg hb]
  simp only [ht]
  rw [if_neg h0, if_neg hpi, if_neg hh, if_neg h3, if_neg hup]
  rw [if_neg hxi0, if_neg hxi1]

/-! ## C2: cardinal-angle straight-line hit on the 5×5 border-only grid -/

theorem float_eq_zero_zero : float_eq 0 0 := by
  unfold float_eq TOLERANCE
  norm_num

/-- C2: on the 5×5 grid with solid white border and empty interior, casting at
angle 0 from (2.5, 2.5) hits at exactly (4.0, 2.5) with the border color
(fuel 10 is ample; the walk takes three steps). -/
theorem project_cardinal_hit :
    projectF map5 10 0 2.5 2.5 = some (some ⟨4, 2.5, white, Real.pi⟩) := by
  have hb2 : ¬(map5.height ≤ 2 ∨ map5.width ≤ 2) := by decide
  have hb3 : ¬(map5.height ≤ 2 ∨ map5.width ≤ 2 + 1) := by decide
  have hb4 : ¬(map5.height ≤ 2 ∨ map5.width ≤ 2 + 1 + 1) := by decide
  have ht2 : map5.tile 2 2 = .empty := rfl
  have ht3 : map5.tile 2 (2 + 1) = .empty := rfl
  have ht4 : map5.tile 2 (2 + 1 + 1) = .solid white := rfl
  have hfloor : ⌊(2.5 : ℝ)⌋ = 2 := by norm_num
  have hfl : toUsize 2.5 = 2 := by
    unfold toUsize
    rw [hfloor]
    rfl
  simp only [projectF]
  rw [hfl]
  have hx : (2.5 : ℝ) - ((2 : ℕ) : ℝ) = 0.5 := by norm_num
  rw [hx, neg_zero]
  rw [show (10 : ℕ) = 9 + 1 from rfl, project2F_card_right hb2 ht2 float_eq_zero_zero]
  rw [show (9 : ℕ) = 8 + 1 from rfl, project2F_card_right hb3 ht3 float_eq_zero_zero]
  rw [show (8 : ℕ) = 7 + 1 from rfl, project2F_solid hb4 ht4]
  norm_num [Projection.mk.injEq]

/-! ## C3: the downward-case left-exit boundary is strict (`< 0`, not `≤ 0`) -/

theorem tan_three_pi_div_four : Real.tan (3 * Real.pi / 4) = -1 := by
  have h : (3 : ℝ) * Real.pi / 4 = Real.pi - Real.pi / 4 := by ring
  rw [h, Real.tan_pi_sub, Real.tan_pi_div_four]

theorem angle34_not_card_zero : ¬float_eq (3 * Real.pi / 4) 0 := by
  unfold float_eq TOLERANCE
  rw [abs_lt]
  rintro ⟨h1, h2⟩
  nlinarith [Real.pi_gt_three]

theorem angle34_not_card_pi : ¬float_eq (3 * Real.pi / 4) Real.pi := by
  unfold float_eq TOLERANCE
  rw [abs_lt]
  rintro ⟨h1, h2⟩
  nlinarith [Real.pi_gt_three]

theorem angle34_not_card_half : ¬float_eq (3 * Real.pi / 4) (Real.pi / 2) := by
  unfold float_eq TOLERANCE
  rw [abs_lt]
  rintro ⟨h1, h2⟩
  nlinarith [Real.pi_gt_three]

theorem angle34_not_card_three_half : ¬float_eq (3 * Real.pi / 4) (3 * (Real.pi / 2)) := by
  unfold float_eq TOLERANCE
  rw [abs_lt]
  rintro ⟨h1, h2⟩
  nlinarith [Real.pi_gt_three]

theorem angle34_down : 3 * Real.pi / 4 < Real.pi := by
  nlinarith [Real.pi_pos]

/-- C3 counterexample: at angle 3π/4 (general downward case, not cardinal)
from in-cell offset (1/2, 1/2) of the empty cell (row 1, column 1) of `mapC3`,
the fractional x-intercept is exactly 0; the claim then requires a left exit
(hitting the blue tile at column 0 with normal 0), but the code's strict
`x_intercept < 0.0` test sends the ray through the bottom edge instead,
hitting the red tile below with normal 3π/2. -/
theorem project2_left_intercept_counterexample :
    (1 / 2 : ℝ) + (1 - 1 / 2) / Real.tan (3 * Real.pi / 4) ≤ 0 ∧
      mapC3.tile 1 1 = .empty ∧
      3 * Real.pi / 4 < Real.pi ∧
      ¬float_eq (3 * Real.pi / 4) 0 ∧
      ¬float_eq (3 * Real.pi / 4) Real.pi ∧
      ¬float_eq (3 * Real.pi / 4) (Real.pi / 2) ∧
      ¬float_eq (3 * Real.pi / 4) (3 * (Real.pi / 2)) ∧
      project2F mapC3 5 (3 * Real.pi / 4) 1 1 (1 / 2) (1 / 2) 0 =
        some (some ⟨1, 2, red, 3 * (Real.pi / 2)⟩) ∧
      red ≠ blue ∧ (3 * (Real.pi / 2) : ℝ) ≠ 0 := by
  have hx0 : (1 / 2 : ℝ) + (1 - 1 / 2) / Real.tan (3 * Real.pi / 4) = 0 := by
    rw [tan_three_pi_div_four]
    norm_num
  refine ⟨le_of_eq hx0, rfl, angle34_down, angle34_not_card_zero, angle34_not_card_pi,
    angle34_not_card_half, angle34_not_card_three_half, ?_, by decide, ?_⟩
  · have hb1 : ¬(mapC3.height ≤ 1 ∨ mapC3.width ≤ 1) := by decide
    have ht1 : mapC3.tile 1 1 = .empty := rfl
    rw [show (5 : ℕ) = 4 + 1 from rfl,
      project2F_down_bottom hb1 ht1 angle34_not_card_zero angle34_not_card_pi
        angle34_not_card_half angle34_not_card_three_half angle34_down
        (by rw [hx0]; norm_num) (by rw [hx0]; norm_num)]
    rw [hx0]
    have hb2 : ¬(mapC3.height ≤ 1 + 1 ∨ mapC3.width ≤ 1) := by decide
    have ht2 : mapC3.tile (1 + 1) 1 = .solid red := rfl
    rw [show (4 : ℕ) = 3 + 1 from rfl, project2F_solid hb2 ht2]
    norm_num [Projection.mk.injEq]
  · have := Real.pi_pos
    intro h
    nlinarith

/-- C3 (amended): in the general downward-pointing case (angle < π, not within
tolerance of any cardinal angle, current cell empty and in bounds), whenever
the fractional x-intercept is strictly negative the ray exits through the left
edge: `project2` recurses into column−1 with x = 1, y from the line equation
`1 − ((1 − y) + x·tan angle)`, and normal = 0, and returns the source's `None`
when column = 0. -/
theorem project2_down_left_step {m : Map} {fuel : ℕ} {angle : ℝ} {row col : ℕ}
    {x y n : ℝ} (hb : ¬(m.height ≤ row ∨ m.width ≤ col)) (ht : m.tile row col = .empty)
    (h0 : ¬float_eq angle 0) (hpi : ¬float_eq angle Real.pi)
    (hh : ¬float_eq angle (Real.pi / 2)) (h3 : ¬float_eq angle (3 * (Real.pi / 2)))
    (hdown : angle < Real.pi) (hxi : x + (1 - y) / Real.tan angle < 0) :
    project2F m (fuel + 1) angle row col x y n =
      (if col = 0 then some none
       else project2F m fuel angle row (col - 1) 1
         (1 - ((1 - y) + x * Real.tan angle)) 0) :=
  project2F_down_left hb ht h0 hpi hh h3 hdown hxi

/-- C3 witness: the amended step theorem applied at angle 3π/4 from offset
(1/4, 1/2) in the empty cell (1,1) of `mapC3`, where the x-intercept is
−1/4 < 0: the walk recurses into column 0 with x = 1 and normal 0. -/
theorem project2_down_left_step_witness :
    (1 / 4 : ℝ) + (1 - 1 / 2) / Real.tan (3 * Real.pi / 4) < 0 ∧
      project2F mapC3 5 (3 * Real.pi / 4) 1 1 (1 / 4) (1 / 2) 0 =
        (if (1 : ℕ) = 0 then some none
         else project2F mapC3 4 (3 * Real.pi / 4) 1 0 1
           (1 - ((1 - 1 / 2) + 1 / 4 * Real.tan (3 * Real.pi / 4))) 0) := by
  have hxi : (1 / 4 : ℝ) + (1 - 1 / 2) / Real.tan (3 * Real.pi / 4) < 0 := by
    rw [tan_three_pi_div_four]
    norm_num
  exact ⟨hxi,
    project2_down_left_step (by decide) rfl angle34_not_card_zero angle34_not_card_pi
      angle34_not_card_half angle34_not_card_three_half angle34_down hxi⟩

/-! ## C6: axis-independent sliding in `Level::update` -/

theorem TAU_pos : (0 : ℝ) < TAU := by
  unfold TAU
  positivity

theorem normAngleDown_of_lt {a : ℝ} (h : a < TAU) : normAngleDown a = a := by
  rw [normAngleDown, if_neg (not_le.2 h)]

theorem normAngleUp_of_nonneg {a : ℝ} (h : 0 ≤ a) : normAngleUp a = a := by
  rw [normAngleUp, if_neg (not_lt.2 h)]

/-- C6: when the y-component of the accumulated move vector is blocked by
`can_move_to` but the x-component is not, `Level::update` leaves `player_y`
unchanged and advances `player_x` by exactly `dx`. -/
theorem update_axis_sliding (l : Level) (inputs : InputSnapshot)
    (hok : inputs.ok_clicked = false)
    (hy : ¬l.can_move_to l.player_x (l.player_y + l.moveDy inputs))
    (hx : l.can_move_to (l.player_x + l.moveDx inputs) l.player_y) :
    (l.update inputs).1.player_y = l.player_y ∧
      (l.update inputs).1.player_x = l.player_x + l.moveDx inputs := by
  have h1 : l.update inputs =
      (⟨l.map, l.player_x + l.moveDx inputs, l.player_y, l.turnedAngle inputs⟩,
        .continue_) := by
    simp only [Level.update, hok, Bool.false_eq_true, if_false]
    rw [if_neg hy, if_pos hx]
  rw [h1]
  exact ⟨rfl, rfl⟩

theorem levelC6_turnedAngle : levelC6.turnedAngle inputsC6 = 0 := by
  simp only [Level.turnedAngle, levelC6, inputsC6, Bool.false_eq_true, if_false]
  rw [normAngleDown_of_lt (by simpa using TAU_pos), normAngleUp_of_nonneg le_rfl]

theorem levelC6_moveDx : levelC6.moveDx inputsC6 = 0.05 := by
  simp only [Level.moveDx, levelC6_turnedAngle]
  simp only [inputsC6, Bool.false_eq_true, if_false, if_true, Real.cos_zero, Real.sin_zero]
  unfold MOVE_SPEED
  norm_num

theorem levelC6_moveDy : levelC6.moveDy inputsC6 = 0.05 := by
  simp only [Level.moveDy, levelC6_turnedAngle]
  simp only [inputsC6, Bool.false_eq_true, if_false, if_true, Real.cos_zero, Real.sin_zero]
  unfold MOVE_SPEED
  norm_num

theorem levelC6_blocked_y :
    ¬levelC6.can_move_to levelC6.player_x (levelC6.player_y + levelC6.moveDy inputsC6) := by
  rw [levelC6_moveDy]
  show ¬levelC6.can_move_to 1.5 (2.57 + 0.05)
  have hr : toUsize (2.57 + 0.05) = 2 := by
    unfold toUsize
    rw [show (2.57 + 0.05 : ℝ) = 2.62 from by norm_num, show ⌊(2.62 : ℝ)⌋ = 2 from by norm_num]
    rfl
  have hc : toUsize 1.5 = 1 := by
    unfold toUsize
    rw [show ⌊(1.5 : ℝ)⌋ = 1 from by norm_num]
    rfl
  intro h
  simp only [Level.can_move_to, hr, hc] at h
  obtain ⟨-, -, -, -, h5⟩ := h
  have h6 := h5 (by
    show 1 - PLAYER_SIZE / 2 < 2.57 + 0.05 - ((2 : ℕ) : ℝ)
    unfold PLAYER_SIZE
    push_cast
    norm_num)
  have ht : levelC6.map.tile (2 + 1) 1 = .solid white := rfl
  rw [ht] at h6
  exact absurd h6.2 (by decide)

theorem levelC6_free_x :
    levelC6.can_move_to (levelC6.player_x + levelC6.moveDx inputsC6) levelC6.player_y := by
  rw [levelC6_moveDx]
  show levelC6.can_move_to (1.5 + 0.05) 2.57
  have hr : toUsize 2.57 = 2 := by
    unfold toUsize
    rw [show ⌊(2.57 : ℝ)⌋ = 2 from by norm_num]
    rfl
  have hc : toUsize (1.5 + 0.05) = 1 := by
    unfold toUsize
    rw [show (1.5 + 0.05 : ℝ) = 1.55 from by norm_num, show ⌊(1.55 : ℝ)⌋ = 1 from by norm_num]
    rfl
  simp only [Level.can_move_to, hr, hc]
  refine ⟨rfl, ?_, ?_, ?_, ?_⟩ <;> intro hcon <;> [skip; skip; skip; skip] <;>
    · exfalso
      revert hcon
      unfold PLAYER_SIZE
      push_cast
      norm_num

/-- C6 witness: in `levelC6` with forward + strafe-right held at heading 0,
the move vector is (0.05, 0.05); the y-step into the bottom wall is rejected
while the x-step is applied. -/
theorem update_axis_sliding_witness :
    ¬levelC6.can_move_to levelC6.player_x (levelC6.player_y + levelC6.moveDy inputsC6) ∧
      levelC6.can_move_to (levelC6.player_x + levelC6.moveDx inputsC6) levelC6.player_y ∧
      (levelC6.update inputsC6).1.player_y = levelC6.player_y ∧
      (levelC6.update inputsC6).1.player_x = levelC6.player_x + levelC6.moveDx inputsC6 :=
  ⟨levelC6_blocked_y, levelC6_free_x,
    update_axis_sliding levelC6 inputsC6 rfl levelC6_blocked_y levelC6_free_x⟩

/-! ## C8: `Color::from_str` -/

theorem hexVal_le_of_isHexDigit {c : Char} (h : isHexDigit c = true) : hexVal c ≤ 15 := by
  unfold isHexDigit at h
  unfold hexVal
  simp only [Bool.or_eq_true, Bool.and_eq_true, decide_eq_true_eq] at h
  split_ifs with h1 h2
  · simp only [Bool.and_eq_true, decide_eq_true_eq] at h1
    omega
  · simp only [Bool.and_eq_true, decide_eq_true_eq] at h2
    omega
  · simp only [Bool.and_eq_true, decide_eq_true_eq] at h1 h2
    omega

theorem parseHexDigitsU8_nil (r : ℕ) : parseHexDigitsU8 [] r = .ok r := rfl

theorem parseHexDigitsU8_cons_ok {c : Char} (h : isHexDigit c = true) {r : ℕ}
    (hv : r * 16 + hexVal c ≤ 255) (rest : List Char) :
    parseHexDigitsU8 (c :: rest) r = parseHexDigitsU8 rest (r * 16 + hexVal c) := by
  conv_lhs => rw [parseHexDigitsU8]
  rw [if_pos h, if_pos hv]

theorem parseHexDigitsU8_cons_bad {c : Char} (h : isHexDigit c = false) (rest : List Char)
    (r : ℕ) : parseHexDigitsU8 (c :: rest) r = .error () := by
  unfold parseHexDigitsU8
  rw [if_neg (by simp [h])]

theorem isHexDigit_plus : isHexDigit '+' = false := by decide

/-- Characterization of `u8::from_str_radix(s, 16)` on two-character inputs:
it succeeds exactly on the pairs accepted by `validU8HexPair`, yielding the
pair's hex value. -/
theorem from_str_radix_pair (c1 c2 : Char) (n : ℕ) :
    from_str_radix_u8 [c1, c2] = .ok n ↔
      validU8HexPair [c1, c2] ∧ n = pairVal [c1, c2] := by
  simp only [from_str_radix_u8]
  by_cases hplus : c1 = '+'
  · subst hplus
    rw [if_pos rfl, if_neg (by simp)]
    by_cases h2 : isHexDigit c2 = true
    · rw [parseHexDigitsU8_cons_ok h2 (by have := hexVal_le_of_isHexDigit h2; omega) [],
        parseHexDigitsU8_nil]
      simp only [Except.ok.injEq]
      constructor
      · rintro rfl
        exact ⟨Or.inr ⟨c2, rfl, h2⟩, by simp [pairVal]⟩
      · rintro ⟨-, rfl⟩
        simp [pairVal]
    · rw [parseHexDigitsU8_cons_bad (by simpa using h2)]
      constructor
      · intro hcon
        exact absurd hcon (by simp)
      · rintro ⟨hval, -⟩
        exfalso
        rcases hval with ⟨a, b, heq, ha, hb⟩ | ⟨b, heq, hb⟩
        · simp only [List.cons.injEq, and_true] at heq
          obtain ⟨ha', hb'⟩ := heq
          rw [← ha'] at ha
          exact absurd ha (by simp [isHexDigit_plus])
        · simp only [List.cons.injEq, true_and, and_true] at heq
          rw [← heq] at hb
          exact h2 hb
  · rw [if_neg hplus]
    by_cases h1 : isHexDigit c1 = true
    · rw [parseHexDigitsU8_cons_ok h1 (by have := hexVal_le_of_isHexDigit h1; omega)]
      by_cases h2 : isHexDigit c2 = true
      · rw [parseHexDigitsU8_cons_ok h2 (by
            have q1 := hexVal_le_of_isHexDigit h1
            have q2 := hexVal_le_of_isHexDigit h2
            omega) [], parseHexDigitsU8_nil]
        simp only [Except.ok.injEq]
        constructor
        · rintro rfl
          refine ⟨Or.inl ⟨c1, c2, rfl, h1, h2⟩, ?_⟩
          simp only [pairVal, if_neg hplus]
          omega
        · rintro ⟨-, rfl⟩
          simp only [pairVal, if_neg hplus]
          omega
      · rw [parseHexDigitsU8_cons_bad (by simpa using h2)]
        constructor
        · intro hcon
          exact absurd hcon (by simp)
        · rintro ⟨hval, -⟩
          exfalso
          rcases hval with ⟨a, b, heq, ha, hb⟩ | ⟨b, heq, hb⟩
          · simp only [List.cons.injEq] at heq
            obtain ⟨-, hb', -⟩ := heq
            rw [← hb'] at hb
            exact h2 hb
          · simp only [List.cons.injEq] at heq
            exact hplus heq.1
    · rw [parseHexDigitsU8_cons_bad (by simpa using h1)]
      constructor
      · intro hcon
        exact absurd hcon (by simp)
      · rintro ⟨hval, -⟩
        exfalso
        rcases hval with ⟨a, b, heq, ha, hb⟩ | ⟨b, heq, hb⟩
        · simp only [List.cons.injEq] at heq
          obtain ⟨ha', -, -⟩ := heq
          rw [← ha'] at ha
          exact h1 ha
        · simp only [List.cons.injEq] at heq
          exact hplus heq.1

theorem valid_pair_iff_ok (c1 c2 : Char) :
    validU8HexPair [c1, c2] ↔ ∃ v, from_str_radix_u8 [c1, c2] = .ok v := by
  constructor
  · intro hv
    exact ⟨pairVal [c1, c2], (from_str_radix_pair c1 c2 _).2 ⟨hv, rfl⟩⟩
  · rintro ⟨v, hv⟩
    exact ((from_str_radix_pair c1 c2 v).1 hv).1

theorem exists_pair_of_length_two : ∀ {p : List Char}, p.length = 2 →
    ∃ c1 c2, p = [c1, c2] := by
  intro p h
  rcases p with - | ⟨c1, p⟩
  · simp at h
  rcases p with - | ⟨c2, p⟩
  · simp at h
  rcases p with - | ⟨c3, p⟩
  · exact ⟨c1, c2, rfl⟩
  · simp at h

/-- C8 counterexample: the six-character remainder `+1+2+3` contains no `'+'`
-free hex pairs — `'+'` is not a hex digit — yet `from_str` accepts it,
because `u8::from_str_radix` tolerates a leading `'+'` in every component. -/
theorem color_from_str_plus_counterexample :
    Color.from_str ['#', '+', '1', '+', '2', '+', '3'] = .ok ⟨1, 2, 3, 255⟩ ∧
      isHexDigit '+' = false := by
  constructor
  · rfl
  · decide

/-- C8 (amended): `Color::from_str` (after stripping an optional leading `#`)
returns `Ok` exactly when the remainder splits into 6 or 8 characters whose
two-character groups are each accepted by the u8 hex parser — two hex digits,
or `'+'` followed by one hex digit; a 6-character remainder parses as
RR GG BB with alpha 255, an 8-character remainder parses with the alpha group
first (AA RR GG BB); every other string yields `Err`. -/
theorem color_from_str_characterization (s : List Char) (col : Color) :
    Color.from_str s = .ok col ↔
      ((stripHash s).length = 6 ∧
        validU8HexPair ((stripHash s).take 2) ∧
        validU8HexPair (((stripHash s).drop 2).take 2) ∧
        validU8HexPair (((stripHash s).drop 4).take 2) ∧
        col = ⟨pairVal ((stripHash s).take 2), pairVal (((stripHash s).drop 2).take 2),
          pairVal (((stripHash s).drop 4).take 2), 255⟩) ∨
      ((stripHash s).length = 8 ∧
        validU8HexPair ((stripHash s).take 2) ∧
        validU8HexPair (((stripHash s).drop 2).take 2) ∧
        validU8HexPair (((stripHash s).drop 4).take 2) ∧
        validU8HexPair (((stripHash s).drop 6).take 2) ∧
        col = ⟨pairVal (((stripHash s).drop 2).take 2),
          pairVal (((stripHash s).drop 4).take 2),
          pairVal (((stripHash s).drop 6).take 2), pairVal ((stripHash s).take 2)⟩) := by
  simp only [Color.from_str]
  by_cases h6 : (stripHash s).length = 6
  · rw [if_pos h6]
    obtain ⟨a1, a2, he1⟩ := exists_pair_of_length_two (p := (stripHash s).take 2)
      (by rw [List.length_take]; omega)
    obtain ⟨b1, b2, he2⟩ := exists_pair_of_length_two (p := ((stripHash s).drop 2).take 2)
      (by rw [List.length_take, List.length_drop]; omega)
    obtain ⟨d1, d2, he3⟩ := exists_pair_of_length_two (p := ((stripHash s).drop 4).take 2)
      (by rw [List.length_take, List.length_drop]; omega)
    rw [he1, he2, he3]
    rcases hr1 : from_str_radix_u8 [a1, a2] with e1 | v1
    · show Except.error () = Except.ok col ↔ _
      constructor
      · intro hcon
        exact absurd hcon (by simp)
      · rintro (⟨-, hv1, -, -, -⟩ | ⟨h8, -⟩)
        · obtain ⟨v, hv⟩ := (valid_pair_iff_ok a1 a2).1 hv1
          rw [hr1] at hv
          exact absurd hv (by simp)
        · omega
    · rcases hr2 : from_str_radix_u8 [b1, b2] with e2 | v2
      · show Except.error () = Except.ok col ↔ _
        constructor
        · intro hcon
          exact absurd hcon (by simp)
        · rintro (⟨-, -, hv2, -, -⟩ | ⟨h8, -⟩)
          · obtain ⟨v, hv⟩ := (valid_pair_iff_ok b1 b2).1 hv2
            rw [hr2] at hv
            exact absurd hv (by simp)
          · omega
      · rcases hr3 : from_str_radix_u8 [d1, d2] with e3 | v3
        · show Except.error () = Except.ok col ↔ _
          constructor
          · intro hcon
            exact absurd hcon (by simp)
          · rintro (⟨-, -, -, hv3, -⟩ | ⟨h8, -⟩)
            · obtain ⟨v, hv⟩ := (valid_pair_iff_ok d1 d2).1 hv3
              rw [hr3] at hv
              exact absurd hv (by simp)
            · omega
        · show Except.ok (Color.mk v1 v2 v3 255) = Except.ok col ↔ _
          have p1 := (from_str_radix_pair a1 a2 v1).1 hr1
          have p2 := (from_str_radix_pair b1 b2 v2).1 hr2
          have p3 := (from_str_radix_pair d1 d2 v3).1 hr3
          constructor
          · intro hcon
            simp only [Except.ok.injEq] at hcon
            exact Or.inl ⟨h6, p1.1, p2.1, p3.1, by
              rw [← hcon, p1.2, p2.2, p3.2]⟩
          · rintro (⟨-, -, -, -, rfl⟩ | ⟨h8, -⟩)
            · rw [p1.2, p2.2, p3.2]
            · omega
  · rw [if_neg h6]
    by_cases h8 : (stripHash s).length = 8
    · rw [if_pos h8]
      obtain ⟨a1, a2, he1⟩ := exists_pair_of_length_two (p := (stripHash s).take 2)
        (by rw [List.length_take]; omega)
      obtain ⟨b1, b2, he2⟩ := exists_pair_of_length_two (p := ((stripHash s).drop 2).take 2)
        (by rw [List.length_take, List.length_drop]; omega)
      obtain ⟨d1, d2, he3⟩ := exists_pair_of_length_two (p := ((stripHash s).drop 4).take 2)
        (by rw [List.length_take, List.length_drop]; omega)
      obtain ⟨f1, f2, he4⟩ := exists_pair_of_length_two (p := ((stripHash s).drop 6).take 2)
        (by rw [List.length_take, List.length_drop]; omega)
      rw [he1, he2, he3, he4]
      rcases hr1 : from_str_radix_u8 [a1, a2] with e1 | v1
      · show Except.error () = Except.ok col ↔ _
        constructor
        · intro hcon
          exact absurd hcon (by simp)
        · rintro (⟨h6', -⟩ | ⟨-, hv1, -, -, -, -⟩)
          · omega
          · obtain ⟨v, hv⟩ := (valid_pair_iff_ok a1 a2).1 hv1
            rw [hr1] at hv
            exact absurd hv (by simp)
      · rcases hr2 : from_str_radix_u8 [b1, b2] with e2 | v2
        · show Except.error () = Except.ok col ↔ _
          constructor
          · intro hcon
            exact absurd hcon (by simp)
          · rintro (⟨h6', -⟩ | ⟨-, -, hv2, -, -, -⟩)
            · omega
            · obtain ⟨v, hv⟩ := (valid_pair_iff_ok b1 b2).1 hv2
              rw [hr2] at hv
              exact absurd hv (by simp)
        · rcases hr3 : from_str_radix_u8 [d1, d2] with e3 | v3
          · show Except.error () = Except.ok col ↔ _
            constructor
            · intro hcon
              exact absurd hcon (by simp)
            · rintro (⟨h6', -⟩ | ⟨-, -, -, hv3, -, -⟩)
              · omega
              · obtain ⟨v, hv⟩ := (valid_pair_iff_ok d1 d2).1 hv3
                rw [hr3] at hv
                exact absurd hv (by simp)
          · rcases hr4 : from_str_radix_u8 [f1, f2] with e4 | v4
            · show Except.error () = Except.ok col ↔ _
              constructor
              · intro hcon
                exact absurd hcon (by simp)
              · rintro (⟨h6', -⟩ | ⟨-, -, -, -, hv4, -⟩)
                · omega
                · obtain ⟨v, hv⟩ := (valid_pair_iff_ok f1 f2).1 hv4
                  rw [hr4] at hv
                  exact absurd hv (by simp)
            · show Except.ok (Color.mk v2 v3 v4 v1) = Except.ok col ↔ _
              have p1 := (from_str_radix_pair a1 a2 v1).1 hr1
              have p2 := (from_str_radix_pair b1 b2 v2).1 hr2
              have p3 := (from_str_radix_pair d1 d2 v3).1 hr3
              have p4 := (from_str_radix_pair f1 f2 v4).1 hr4
              constructor
              · intro hcon
                simp only [Except.ok.injEq] at hcon
                exact Or.inr ⟨h8, p1.1, p2.1, p3.1, p4.1, by
                  rw [← hcon, p1.2, p2.2, p3.2, p4.2]⟩
              · rintro (⟨h6', -⟩ | ⟨-, -, -, -, -, rfl⟩)
                · omega
                · rw [p1.2, p2.2, p3.2, p4.2]
    · rw [if_neg h8]
      constructor
      · intro hcon
        exact absurd hcon (by simp)
      · rintro (⟨h6', -⟩ | ⟨h8', -⟩)
        · omega
        · omega

/-! ## C1: termination and in-bounds hit on bordered grids

The walk is analysed per angle class: the four cardinal fast paths, and the
four general quadrant classes (down/right, down/left, up/right, up/left),
each of which moves monotonically in a fixed quadrant direction, giving a
simple decreasing measure bounded by `width + height`. -/

/-- An empty cell of a solid-bordered grid is interior. -/
theorem interior_of_empty {m : Map} (hb : m.solidBorder) {row col : ℕ}
    (hrow : row < m.height) (hcol : col < m.width)
    (hempty : m.tile row col = .empty) :
    1 ≤ row ∧ row + 1 < m.height ∧ 1 ≤ col ∧ col + 1 < m.width := by
  have h0 : row ≠ 0 := by
    intro h
    have hs := hb row col hrow hcol (Or.inl h)
    rw [hempty] at hs
    exact absurd hs (by decide)
  have h1 : row ≠ m.height - 1 := by
    intro h
    have hs := hb row col hrow hcol (Or.inr (Or.inl h))
    rw [hempty] at hs
    exact absurd hs (by decide)
  have h2 : col ≠ 0 := by
    intro h
    have hs := hb row col hrow hcol (Or.inr (Or.inr (Or.inl h)))
    rw [hempty] at hs
    exact absurd hs (by decide)
  have h3 : col ≠ m.width - 1 := by
    intro h
    have hs := hb row col hrow hcol (Or.inr (Or.inr (Or.inr h)))
    rw [hempty] at hs
    exact absurd hs (by decide)
  omega

/-- A solid cell in bounds with in-cell offsets in `[0,1]` is an in-bounds
hit. -/
theorem projHits_solid {m : Map} {row col : ℕ} (hrow : row < m.height)
    (hcol : col < m.width) {c : Color} (ht : m.tile row col = .solid c) {x y : ℝ}
    (hx0 : 0 ≤ x) (hx1 : x ≤ 1) (hy0 : 0 ≤ y) (hy1 : y ≤ 1) (fuel : ℕ) (angle n : ℝ) :
    projHits m (fuel + 1) angle row col x y n := by
  have hcw : (col : ℝ) + 1 ≤ (m.width : ℝ) := by exact_mod_cast hcol
  have hrh : (row : ℝ) + 1 ≤ (m.height : ℝ) := by exact_mod_cast hrow
  refine ⟨⟨(col : ℝ) + x, (row : ℝ) + y, c, n⟩,
    project2F_solid (by push_neg; exact ⟨hrow, hcol⟩) ht, ?_, ?_, ?_, ?_⟩
  · show (0 : ℝ) ≤ (col : ℝ) + x
    have := Nat.cast_nonneg (α := ℝ) col
    linarith
  · show (col : ℝ) + x ≤ (m.width : ℝ)
    linarith
  · show (0 : ℝ) ≤ (row : ℝ) + y
    have := Nat.cast_nonneg (α := ℝ) row
    linarith
  · show (row : ℝ) + y ≤ (m.height : ℝ)
    linarith

/-- Cardinal class `angle ≈ 0`: the walk moves straight right and hits within
`width - col` steps. -/
theorem walk_card_right {m : Map} (hb : m.solidBorder) {angle : ℝ}
    (h0 : float_eq angle 0) :
    ∀ fuel row col : ℕ, m.width - col ≤ fuel → row < m.height → col < m.width →
      ∀ x y n : ℝ, 0 ≤ x → x ≤ 1 → 0 ≤ y → y ≤ 1 →
        projHits m fuel angle row col x y n := by
  intro fuel
  induction fuel with
  | zero =>
    intro row col hm hrow hcol
    exact absurd hm (by omega)
  | succ fuel ih =>
    intro row col hm hrow hcol x y n hx0 hx1 hy0 hy1
    cases htile : m.tile row col with
    | solid c => exact projHits_solid hrow hcol htile hx0 hx1 hy0 hy1 fuel angle n
    | empty =>
      obtain ⟨hr1, hr2, hc1, hc2⟩ := interior_of_empty hb hrow hcol htile
      have hb' : ¬(m.height ≤ row ∨ m.width ≤ col) := by push_neg; exact ⟨hrow, hcol⟩
      unfold projHits
      rw [project2F_card_right hb' htile h0]
      exact ih row (col + 1) (by omega) hrow (by omega) 0 y Real.pi le_rfl zero_le_one
        hy0 hy1

/-- Cardinal class `angle ≈ π`: the walk moves straight left and hits within
`col + 1` steps. -/
theorem walk_card_left {m : Map} (hb : m.solidBorder) {angle : ℝ}
    (h0 : ¬float_eq angle 0) (hpi : float_eq angle Real.pi) :
    ∀ fuel row col : ℕ, col + 1 ≤ fuel → row < m.height → col < m.width →
      ∀ x y n : ℝ, 0 ≤ x → x ≤ 1 → 0 ≤ y → y ≤ 1 →
        projHits m fuel angle row col x y n := by
  intro fuel
  induction fuel with
  | zero =>
    intro row col hm hrow hcol
    exact absurd hm (by omega)
  | succ fuel ih =>
    intro row col hm hrow hcol x y n hx0 hx1 hy0 hy1
    cases htile : m.tile row col with
    | solid c => exact projHits_solid hrow hcol htile hx0 hx1 hy0 hy1 fuel angle n
    | empty =>
      obtain ⟨hr1, hr2, hc1, hc2⟩ := interior_of_empty hb hrow hcol htile
      have hb' : ¬(m.height ≤ row ∨ m.width ≤ col) := by push_neg; exact ⟨hrow, hcol⟩
      unfold projHits
      rw [project2F_card_left hb' htile h0 hpi, if_neg (by omega : ¬col = 0)]
      exact ih row (col - 1) (by omega) hrow (by omega) 1 y 0 zero_le_one le_rfl hy0 hy1

/-- Cardinal class `angle ≈ π/2`: the walk moves straight down and hits within
`height - row` steps. -/
theorem walk_card_down {m : Map} (hb : m.solidBorder) {angle : ℝ}
    (h0 : ¬float_eq angle 0) (hpi : ¬float_eq angle Real.pi)
    (hh : float_eq angle (Real.pi / 2)) :
    ∀ fuel row col : ℕ, m.height - row ≤ fuel → row < m.height → col < m.width →
      ∀ x y n : ℝ, 0 ≤ x → x ≤ 1 → 0 ≤ y → y ≤ 1 →
        projHits m fuel angle row col x y n := by
  intro fuel
  induction fuel with
  | zero =>
    intro row col hm hrow hcol
    exact absurd hm (by omega)
  | succ fuel ih =>
    intro row col hm hrow hcol x y n hx0 hx1 hy0 hy1
    cases htile : m.tile row col with
    | solid c => exact projHits_solid hrow hcol htile hx0 hx1 hy0 hy1 fuel angle n
    | empty =>
      obtain ⟨hr1, hr2, hc1, hc2⟩ := interior_of_empty hb hrow hcol htile
      have hb' : ¬(m.height ≤ row ∨ m.width ≤ col) := by push_neg; exact ⟨hrow, hcol⟩
      unfold projHits
      rw [project2F_card_down hb' htile h0 hpi hh]
      exact ih (row + 1) col (by omega) (by omega) hcol x 0 (3 * (Real.pi / 2)) hx0 hx1
        le_rfl zero_le_one

/-- Cardinal class `angle ≈ 3π/2`: the walk moves straight up and hits within
`row + 1` steps. -/
theorem walk_card_up {m : Map} (hb : m.solidBorder) {angle : ℝ}
    (h0 : ¬float_eq angle 0) (hpi : ¬float_eq angle Real.pi)
    (hh : ¬float_eq angle (Real.pi / 2)) (h3 : float_eq angle (3 * (Real.pi / 2))) :
    ∀ fuel row col : ℕ, row + 1 ≤ fuel → row < m.height → col < m.width →
      ∀ x y n : ℝ, 0 ≤ x → x ≤ 1 → 0 ≤ y → y ≤ 1 →
        projHits m fuel angle row col x y n := by
  intro fuel
  induction fuel with
  | zero =>
    intro row col hm hrow hcol
    exact absurd hm (by omega)
  | succ fuel ih =>
    intro row col hm hrow hcol x y n hx0 hx1 hy0 hy1
    cases htile : m.tile row col with
    | solid c => exact projHits_solid hrow hcol htile hx0 hx1 hy0 hy1 fuel angle n
    | empty =>
      obtain ⟨hr1, hr2, hc1, hc2⟩ := interior_of_empty hb hrow hcol htile
      have hb' : ¬(m.height ≤ row ∨ m.width ≤ col) := by push_neg; exact ⟨hrow, hcol⟩
      unfold projHits
      rw [project2F_card_up hb' htile h0 hpi hh h3, if_neg (by omega : ¬row = 0)]
      exact ih (row - 1) col (by omega) (by omega) hcol x 1 (Real.pi / 2) hx0 hx1
        zero_le_one le_rfl

theorem div_nonpos_of_nonneg_of_neg {a b : ℝ} (ha : 0 ≤ a) (hb : b < 0) : a / b ≤ 0 := by
  rcases eq_or_lt_of_le ha with h | h
  · rw [← h, zero_div]
  · exact (div_neg_of_pos_of_neg h hb).le

/-- General class down/right (`0 < angle < π/2` up to tolerance, tan > 0): the
walk only moves down or right, decreasing `(height − row) + (width − col)`. -/
theorem walk_down_right {m : Map} (hb : m.solidBorder) {angle : ℝ}
    (h0 : ¬float_eq angle 0) (hpi : ¬float_eq angle Real.pi)
    (hh : ¬float_eq angle (Real.pi / 2)) (h3 : ¬float_eq angle (3 * (Real.pi / 2)))
    (hdown : angle < Real.pi) (htan : 0 < Real.tan angle) :
    ∀ fuel row col : ℕ, (m.height - row) + (m.width - col) ≤ fuel →
      row < m.height → col < m.width →
      ∀ x y n : ℝ, 0 ≤ x → x ≤ 1 → 0 ≤ y → y ≤ 1 →
        projHits m fuel angle row col x y n := by
  intro fuel
  induction fuel with
  | zero =>
    intro row col hm hrow hcol
    exact absurd hm (by omega)
  | succ fuel ih =>
    intro row col hm hrow hcol x y n hx0 hx1 hy0 hy1
    cases htile : m.tile row col with
    | solid c => exact projHits_solid hrow hcol htile hx0 hx1 hy0 hy1 fuel angle n
    | empty =>
      obtain ⟨hr1, hr2, hc1, hc2⟩ := interior_of_empty hb hrow hcol htile
      have hb' : ¬(m.height ≤ row ∨ m.width ≤ col) := by push_neg; exact ⟨hrow, hcol⟩
      have hdiv : 0 ≤ (1 - y) / Real.tan angle := div_nonneg (by linarith) htan.le
      have hxi0 : ¬(x + (1 - y) / Real.tan angle < 0) := by
        push_neg
        linarith
      by_cases hxi1 : x + (1 - y) / Real.tan angle < 1
      · unfold projHits
        rw [project2F_down_bottom hb' htile h0 hpi hh h3 hdown hxi0 hxi1]
        exact ih (row + 1) col (by omega) (by omega) hcol _ 0 _ (by linarith) hxi1.le
          le_rfl zero_le_one
      · unfold projHits
        rw [project2F_down_right hb' htile h0 hpi hh h3 hdown hxi0 hxi1]
        have hge : 1 ≤ x + (1 - y) / Real.tan angle := not_lt.1 hxi1
        have hyn0 : 0 ≤ y + (1 - x) * Real.tan angle := by
          have : 0 ≤ (1 - x) * Real.tan angle := mul_nonneg (by linarith) htan.le
          linarith
        have hyn1 : y + (1 - x) * Real.tan angle ≤ 1 := by
          have h1 : 1 - x ≤ (1 - y) / Real.tan angle := by linarith
          have h2 : (1 - x) * Real.tan angle ≤ 1 - y := (le_div_iff₀ htan).1 h1
          linarith
        exact ih row (col + 1) (by omega) hrow (by omega) 0 _ Real.pi le_rfl zero_le_one
          hyn0 hyn1

/-- General class down/left (`π/2 < angle < π` up to tolerance, tan < 0): the
walk only moves down or left, decreasing `(height − row) + col + 1`; the
in-cell y stays strictly below 1, which rules out the right exit. -/
theorem walk_down_left {m : Map} (hb : m.solidBorder) {angle : ℝ}
    (h0 : ¬float_eq angle 0) (hpi : ¬float_eq angle Real.pi)
    (hh : ¬float_eq angle (Real.pi / 2)) (h3 : ¬float_eq angle (3 * (Real.pi / 2)))
    (hdown : angle < Real.pi) (htan : Real.tan angle < 0) :
    ∀ fuel row col : ℕ, (m.height - row) + col + 1 ≤ fuel →
      row < m.height → col < m.width →
      ∀ x y n : ℝ, 0 ≤ x → x ≤ 1 → 0 ≤ y → y < 1 →
        projHits m fuel angle row col x y n := by
  intro fuel
  induction fuel with
  | zero =>
    intro row col hm hrow hcol
    exact absurd hm (by omega)
  | succ fuel ih =>
    intro row col hm hrow hcol x y n hx0 hx1 hy0 hy1
    cases htile : m.tile row col with
    | solid c => exact projHits_solid hrow hcol htile hx0 hx1 hy0 hy1.le fuel angle n
    | empty =>
      obtain ⟨hr1, hr2, hc1, hc2⟩ := interior_of_empty hb hrow hcol htile
      have hb' : ¬(m.height ≤ row ∨ m.width ≤ col) := by push_neg; exact ⟨hrow, hcol⟩
      have hxi1 : x + (1 - y) / Real.tan angle < 1 := by
        have : (1 - y) / Real.tan angle < 0 := div_neg_of_pos_of_neg (by linarith) htan
        linarith
      by_cases hxi0 : x + (1 - y) / Real.tan angle < 0
      · unfold projHits
        rw [project2F_down_left hb' htile h0 hpi hh h3 hdown hxi0,
          if_neg (by omega : ¬col = 0)]
        have hexp : (x + (1 - y) / Real.tan angle) * Real.tan angle =
            x * Real.tan angle + (1 - y) := by
          have hne : Real.tan angle ≠ 0 := ne_of_lt htan
          field_simp
        have hprod : 0 < x * Real.tan angle + (1 - y) := by
          have := mul_pos_of_neg_of_neg hxi0 htan
          rw [hexp] at this
          exact this
        have hxt : x * Real.tan angle ≤ 0 := by nlinarith
        have hyn0 : 0 ≤ 1 - ((1 - y) + x * Real.tan angle) := by linarith
        have hyn1 : 1 - ((1 - y) + x * Real.tan angle) < 1 := by linarith
        exact ih row (col - 1) (by omega) hrow (by omega) 1 _ 0 zero_le_one le_rfl
          hyn0 hyn1
      · unfold projHits
        rw [project2F_down_bottom hb' htile h0 hpi hh h3 hdown hxi0 hxi1]
        exact ih (row + 1) col (by omega) (by omega) hcol _ 0 _ (not_lt.1 hxi0) hxi1.le
          le_rfl (by norm_num)

/-- General class up/right (`3π/2 < angle < 2π` up to tolerance, so
`tan (2π − angle) > 0`): the walk only moves up or right, decreasing
`(row + 1) + (width − col)`. -/
theorem walk_up_right {m : Map} (hb : m.solidBorder) {angle : ℝ}
    (h0 : ¬float_eq angle 0) (hpi : ¬float_eq angle Real.pi)
    (hh : ¬float_eq angle (Real.pi / 2)) (h3 : ¬float_eq angle (3 * (Real.pi / 2)))
    (hup : ¬(angle < Real.pi)) (htan : 0 < Real.tan (TAU - angle)) :
    ∀ fuel row col : ℕ, (row + 1) + (m.width - col) ≤ fuel →
      row < m.height → col < m.width →
      ∀ x y n : ℝ, 0 ≤ x → x ≤ 1 → 0 ≤ y → y ≤ 1 →
        projHits m fuel angle row col x y n := by
  intro fuel
  induction fuel with
  | zero =>
    intro row col hm hrow hcol
    exact absurd hm (by omega)
  | succ fuel ih =>
    intro row col hm hrow hcol x y n hx0 hx1 hy0 hy1
    cases htile : m.tile row col with
    | solid c => exact projHits_solid hrow hcol htile hx0 hx1 hy0 hy1 fuel angle n
    | empty =>
      obtain ⟨hr1, hr2, hc1, hc2⟩ := interior_of_empty hb hrow hcol htile
      have hb' : ¬(m.height ≤ row ∨ m.width ≤ col) := by push_neg; exact ⟨hrow, hcol⟩
      have hdiv : 0 ≤ y / Real.tan (TAU - angle) := div_nonneg hy0 htan.le
      have hxi0 : ¬(x + y / Real.tan (TAU - angle) < 0) := by
        push_neg
        linarith
      by_cases hxi1 : x + y / Real.tan (TAU - angle) < 1
      · unfold projHits
        rw [project2F_up_top hb' htile h0 hpi hh h3 hup hxi0 hxi1,
          if_neg (by omega : ¬row = 0)]
        exact ih (row - 1) col (by omega) (by omega) hcol _ 1 _ (by linarith) hxi1.le
          zero_le_one le_rfl
      · unfold projHits
        rw [project2F_up_right hb' htile h0 hpi hh h3 hup hxi0 hxi1]
        have hge : 1 ≤ x + y / Real.tan (TAU - angle) := not_lt.1 hxi1
        have hyn1 : y - (1 - x) * Real.tan (TAU - angle) ≤ 1 := by
          have : 0 ≤ (1 - x) * Real.tan (TAU - angle) := mul_nonneg (by linarith) htan.le
          linarith
        have hyn0 : 0 ≤ y - (1 - x) * Real.tan (TAU - angle) := by
          have h1 : 1 - x ≤ y / Real.tan (TAU - angle) := by linarith
          have h2 : (1 - x) * Real.tan (TAU - angle) ≤ y := (le_div_iff₀ htan).1 h1
          linarith
        exact ih row (col + 1) (by omega) hrow (by omega) 0 _ Real.pi le_rfl zero_le_one
          hyn0 hyn1

/-- General class up/left (`π < angle < 3π/2` up to tolerance, so
`tan (2π − angle) < 0`): the walk only moves up or left, decreasing
`(row + 1) + col + 1`.  The corner state (x = 1, y = 0) never arises — a left
exit always leaves strictly positive y — which rules out the right exit. -/
theorem walk_up_left {m : Map} (hb : m.solidBorder) {angle : ℝ}
    (h0 : ¬float_eq angle 0) (hpi : ¬float_eq angle Real.pi)
    (hh : ¬float_eq angle (Real.pi / 2)) (h3 : ¬float_eq angle (3 * (Real.pi / 2)))
    (hup : ¬(angle < Real.pi)) (htan : Real.tan (TAU - angle) < 0) :
    ∀ fuel row col : ℕ, (row + 1) + col + 1 ≤ fuel →
      row < m.height → col < m.width →
      ∀ x y n : ℝ, 0 ≤ x → x ≤ 1 → 0 ≤ y → y ≤ 1 → (x = 1 → 0 < y) →
        projHits m fuel angle row col x y n := by
  intro fuel
  induction fuel with
  | zero =>
    intro row col hm hrow hcol
    exact absurd hm (by omega)
  | succ fuel ih =>
    intro row col hm hrow hcol x y n hx0 hx1 hy0 hy1 hcorner
    cases htile : m.tile row col with
    | solid c => exact projHits_solid hrow hcol htile hx0 hx1 hy0 hy1 fuel angle n
    | empty =>
      obtain ⟨hr1, hr2, hc1, hc2⟩ := interior_of_empty hb hrow hcol htile
      have hb' : ¬(m.height ≤ row ∨ m.width ≤ col) := by push_neg; exact ⟨hrow, hcol⟩
      have hyt : y / Real.tan (TAU - angle) ≤ 0 := div_nonpos_of_nonneg_of_neg hy0 htan
      have hxi1 : x + y / Real.tan (TAU - angle) < 1 := by
        rcases eq_or_lt_of_le hx1 with hx | hx
        · have hy := hcorner hx
          have : y / Real.tan (TAU - angle) < 0 := div_neg_of_pos_of_neg hy htan
          linarith
        · linarith
      by_cases hxi0 : x + y / Real.tan (TAU - angle) < 0
      · unfold projHits
        rw [project2F_up_left hb' htile h0 hpi hh h3 hup hxi0,
          if_neg (by omega : ¬col = 0)]
        have hexp : (x + y / Real.tan (TAU - angle)) * Real.tan (TAU - angle) =
            x * Real.tan (TAU - angle) + y := by
          have hne : Real.tan (TAU - angle) ≠ 0 := ne_of_lt htan
          field_simp
        have hprod : 0 < x * Real.tan (TAU - angle) + y := by
          have := mul_pos_of_neg_of_neg hxi0 htan
          rw [hexp] at this
          exact this
        have hxt : x * Real.tan (TAU - angle) ≤ 0 := by nlinarith
        have hyn0 : 0 < 1 - ((1 - y) - x * Real.tan (TAU - angle)) := by linarith
        have hyn1 : 1 - ((1 - y) - x * Real.tan (TAU - angle)) ≤ 1 := by linarith
        exact ih row (col - 1) (by omega) hrow (by omega) 1 _ 0 zero_le_one le_rfl
          hyn0.le hyn1 (fun _ => hyn0)
      · unfold projHits
        rw [project2F_up_top hb' htile h0 hpi hh h3 hup hxi0 hxi1,
          if_neg (by omega : ¬row = 0)]
        exact ih (row - 1) col (by omega) (by omega) hcol _ 1 _ (not_lt.1 hxi0) hxi1.le
          zero_le_one le_rfl (fun _ => one_pos)

/-- Every normalized angle falls into one of the eight walk classes, so from
any in-bounds cell with fractional offsets in `[0,1)` the walk hits within
`width + height` steps. -/
theorem project2F_class_hits {m : Map} (hb : m.solidBorder) {angle : ℝ}
    (ha0 : 0 ≤ angle) (ha2 : angle < 2 * Real.pi) :
    ∀ fuel row col : ℕ, m.width + m.height ≤ fuel → row < m.height → col < m.width →
      ∀ x y n : ℝ, 0 ≤ x → x < 1 → 0 ≤ y → y < 1 →
        projHits m fuel angle row col x y n := by
  intro fuel row col hm hrow hcol x y n hx0 hx1 hy0 hy1
  have htolpos : (0 : ℝ) < TOLERANCE := by
    unfold TOLERANCE
    norm_num
  by_cases h0 : float_eq angle 0
  · exact walk_card_right hb h0 fuel row col (by omega) hrow hcol x y n hx0 hx1.le hy0
      hy1.le
  by_cases hpi : float_eq angle Real.pi
  · exact walk_card_left hb h0 hpi fuel row col (by omega) hrow hcol x y n hx0 hx1.le
      hy0 hy1.le
  by_cases hh : float_eq angle (Real.pi / 2)
  · exact walk_card_down hb h0 hpi hh fuel row col (by omega) hrow hcol x y n hx0 hx1.le
      hy0 hy1.le
  by_cases h3 : float_eq angle (3 * (Real.pi / 2))
  · exact walk_card_up hb h0 hpi hh h3 fuel row col (by omega) hrow hcol x y n hx0
      hx1.le hy0 hy1.le
  have hangle_pos : 0 < angle := by
    rcases eq_or_lt_of_le ha0 with hcon | h
    · exfalso
      apply h0
      unfold float_eq
      rw [← hcon]
      simpa using htolpos
    · exact h
  by_cases hdown : angle < Real.pi
  · have hne2 : angle ≠ Real.pi / 2 := by
      intro hcon
      apply hh
      unfold float_eq
      rw [hcon]
      simpa using htolpos
    rcases lt_or_gt_of_ne hne2 with hlt | hgt
    · have htan : 0 < Real.tan angle :=
        Real.tan_pos_of_pos_of_lt_pi_div_two hangle_pos hlt
      exact walk_down_right hb h0 hpi hh h3 hdown htan fuel row col (by omega) hrow hcol
        x y n hx0 hx1.le hy0 hy1.le
    · have hsin : 0 < Real.sin angle := Real.sin_pos_of_pos_of_lt_pi hangle_pos hdown
      have hcos : Real.cos angle < 0 :=
        Real.cos_neg_of_pi_div_two_lt_of_lt hgt (by linarith [Real.pi_pos])
      have htan : Real.tan angle < 0 := by
        rw [Real.tan_eq_sin_div_cos]
        exact div_neg_of_pos_of_neg hsin hcos
      exact walk_down_left hb h0 hpi hh h3 hdown htan fuel row col (by omega) hrow hcol
        x y n hx0 hx1.le hy0 hy1
  · have hge : Real.pi ≤ angle := not_lt.1 hdown
    have hTAU : TAU = 2 * Real.pi := rfl
    have hgt_pi : Real.pi < angle := by
      rcases eq_or_lt_of_le hge with hcon | h
      · exfalso
        apply hpi
        unfold float_eq
        rw [← hcon]
        simpa using htolpos
      · exact h
    have hu0 : 0 < TAU - angle := by
      rw [hTAU]
      linarith
    have hu1 : TAU - angle < Real.pi := by
      rw [hTAU]
      linarith
    have hune : TAU - angle ≠ Real.pi / 2 := by
      intro hcon
      apply h3
      unfold float_eq
      have hval : angle = 3 * (Real.pi / 2) := by
        rw [hTAU] at hcon
        linarith
      rw [hval]
      simpa using htolpos
    rcases lt_or_gt_of_ne hune with hlt | hgt
    · have htan : 0 < Real.tan (TAU - angle) :=
        Real.tan_pos_of_pos_of_lt_pi_div_two hu0 hlt
      exact walk_up_right hb h0 hpi hh h3 hdown htan fuel row col (by omega) hrow hcol
        x y n hx0 hx1.le hy0 hy1.le
    · have hsin : 0 < Real.sin (TAU - angle) := Real.sin_pos_of_pos_of_lt_pi hu0 hu1
      have hcos : Real.cos (TAU - angle) < 0 :=
        Real.cos_neg_of_pi_div_two_lt_of_lt hgt (by linarith [Real.pi_pos])
      have htan : Real.tan (TAU - angle) < 0 := by
        rw [Real.tan_eq_sin_div_cos]
        exact div_neg_of_pos_of_neg hsin hcos
      exact walk_up_left hb h0 hpi hh h3 hdown htan fuel row col (by omega) hrow hcol
        x y n hx0 hx1.le hy0 hy1.le (fun hcon => absurd hcon (ne_of_lt hx1))

/-- C1: for every well-formed grid whose outer ring is entirely solid, calling
`project` with any normalized angle in `[0, 2π)` from a start point in an
in-bounds empty cell (necessarily interior) terminates — any fuel of at least
`width + height` suffices and is never exhausted — and returns `Some`
projection whose hit coordinate lies within `[0, width] × [0, height]`. -/
theorem project_terminates_in_bounds (m : Map) (_hwf : m.WF) (hb : m.solidBorder)
    (angle sx sy : ℝ) (ha0 : 0 ≤ angle) (ha2 : angle < 2 * Real.pi)
    (hrow : toUsize sy < m.height) (hcol : toUsize sx < m.width)
    (hempty : m.tile (toUsize sy) (toUsize sx) = .empty)
    (fuel : ℕ) (hfuel : m.width + m.height ≤ fuel) :
    ∃ p : Projection, projectF m fuel angle sx sy = some (some p) ∧
      0 ≤ p.x ∧ p.x ≤ (m.width : ℝ) ∧ 0 ≤ p.y ∧ p.y ≤ (m.height : ℝ) := by
  obtain ⟨hr1, hr2, hc1, hc2⟩ := interior_of_empty hb hrow hcol hempty
  have hcx : 0 ≤ ⌊sx⌋ := by
    have h := hc1
    unfold toUsize at h
    omega
  have hcy : 0 ≤ ⌊sy⌋ := by
    have h := hr1
    unfold toUsize at h
    omega
  have hcastx : ((toUsize sx : ℕ) : ℝ) = ((⌊sx⌋ : ℤ) : ℝ) := by
    unfold toUsize
    rw [show ((⌊sx⌋.toNat : ℕ) : ℝ) = (((⌊sx⌋.toNat : ℕ) : ℤ) : ℝ) from by push_cast; ring,
      Int.toNat_of_nonneg hcx]
  have hcasty : ((toUsize sy : ℕ) : ℝ) = ((⌊sy⌋ : ℤ) : ℝ) := by
    unfold toUsize
    rw [show ((⌊sy⌋.toNat : ℕ) : ℝ) = (((⌊sy⌋.toNat : ℕ) : ℤ) : ℝ) from by push_cast; ring,
      Int.toNat_of_nonneg hcy]
  have hx0 : 0 ≤ sx - ((toUsize sx : ℕ) : ℝ) := by
    rw [hcastx]
    exact sub_nonneg.2 (Int.floor_le sx)
  have hx1 : sx - ((toUsize sx : ℕ) : ℝ) < 1 := by
    rw [hcastx]
    have := Int.lt_floor_add_one sx
    linarith
  have hy0 : 0 ≤ sy - ((toUsize sy : ℕ) : ℝ) := by
    rw [hcasty]
    exact sub_nonneg.2 (Int.floor_le sy)
  have hy1 : sy - ((toUsize sy : ℕ) : ℝ) < 1 := by
    rw [hcasty]
    have := Int.lt_floor_add_one sy
    linarith
  have h := project2F_class_hits hb ha0 ha2 fuel (toUsize sy) (toUsize sx) hfuel hrow
    hcol (sx - ((toUsize sx : ℕ) : ℝ)) (sy - ((toUsize sy : ℕ) : ℝ)) (-angle) hx0 hx1
    hy0 hy1
  unfold projHits at h
  exact h

theorem toUsize_one_half : toUsize 1.5 = 1 := by
  unfold toUsize
  rw [show ⌊(1.5 : ℝ)⌋ = 1 from by norm_num]
  rfl

/-- C1 witness: the 3×3 grid with solid white border and empty center, angle 0
from (1.5, 1.5), fuel 7 ≥ width + height = 6. -/
theorem project_terminates_in_bounds_witness :
    ∃ p : Projection, projectF map3 7 0 1.5 1.5 = some (some p) ∧
      0 ≤ p.x ∧ p.x ≤ (map3.width : ℝ) ∧ 0 ≤ p.y ∧ p.y ≤ (map3.height : ℝ) :=
  project_terminates_in_bounds map3
    (by
      constructor
      · rfl
      · intro row hrow
        fin_cases hrow <;> rfl)
    (by
      intro r c hr hc hor
      have hr' : r < 3 := hr
      have hc' : c < 3 := hc
      interval_cases r <;> interval_cases c <;>
        first
          | decide
          | (rcases hor with h | h | h | h <;> exact absurd h (by decide)))
    0 1.5 1.5 le_rfl (by positivity)
    (by rw [toUsize_one_half]; decide) (by rw [toUsize_one_half]; decide)
    (by rw [toUsize_one_half]; rfl) 7 (by decide)

end Meez
